import Mathlib

set_option maxHeartbeats 2000000

namespace Sdb

/-- Result of one parser step, mirroring nom's `IResult`: success carries the
remaining input and the parsed value; `err` is a recoverable parse failure
(nom's `Err::Error`); `oof` signals fuel exhaustion of the shallow embedding
(it never occurs when the parser is run with sufficient fuel, see below). -/
inductive PRes (α : Type) where
  | ok (rest : List Char) (val : α)
  | err
  | oof
deriving DecidableEq, Repr

abbrev Parser (α : Type) := List Char → PRes α

def pbind {α β : Type} (r : PRes α) (f : List Char → α → PRes β) : PRes β :=
  match r with
  | .ok rest a => f rest a
  | .err => .err
  | .oof => .oof

/-- nom's `alt` over two alternatives: the second is tried only when the
first fails recoverably. -/
def alt2 {α : Type} (p q : Parser α) : Parser α := fun i =>
  match p i with
  | .err => q i
  | r => r

def pmap {α β : Type} (p : Parser α) (f : α → β) : Parser β := fun i =>
  pbind (p i) (fun rest a => .ok rest (f a))

/-- nom's `tag`: matches the literal token `t` at the head of the input. -/
def tag (t : List Char) : Parser (List Char) := fun i =>
  if t.isPrefixOf i then .ok (i.drop t.length) t else .err

/-- nom's `opt`: an optional parser, succeeding with `none` when `p` fails. -/
def opt {α : Type} (p : Parser α) : Parser (Option α) := fun i =>
  match p i with
  | .ok r a => .ok r (some a)
  | .err => .ok i none
  | .oof => .oof

/-- nom's `recognize`: runs `p` and returns the consumed slice of input. -/
def recognize {α : Type} (p : Parser α) : Parser (List Char) := fun i =>
  pbind (p i) (fun rest _ => .ok rest (i.take (i.length - rest.length)))

def ppair {α β : Type} (p : Parser α) (q : Parser β) : Parser (α × β) := fun i =>
  pbind (p i) (fun i1 a => pbind (q i1) (fun i2 b => .ok i2 (a, b)))

def fail {α : Type} : Parser α := fun _ => .err

/-- Body of nom's `many0`: iterates `p` while it succeeds.  As in nom, an
inner success that consumes no input is an error (`ErrorKind::Many0`).
The `Nat` bound makes the recursion structural; `many0` supplies
`input.length + 1`, which always suffices. -/
def many0Go {α : Type} (p : Parser α) : Nat → List Char → PRes (List α)
  | 0, _ => .oof
  | n + 1, i =>
    match p i with
    | .err => .ok i []
    | .oof => .oof
    | .ok rest a =>
      if rest.length < i.length then
        pbind (many0Go p n rest) (fun r as => .ok r (a :: as))
      else .err

def many0 {α : Type} (p : Parser α) : Parser (List α) := fun i =>
  many0Go p (i.length + 1) i

/-- One-or-more characters satisfying `cl`, the shape shared by nom's
`digit1`, `alpha1`, `alphanumeric1`, `multispace1` and `is_not`. -/
def take_while1 (cl : Char → Bool) : Parser (List Char) := fun i =>
  match i.takeWhile cl with
  | [] => .err
  | pre => .ok (i.dropWhile cl) pre

def digit1 : Parser (List Char) := take_while1 Char.isDigit

def alpha1 : Parser (List Char) := take_while1 Char.isAlpha

def alphanumeric1 : Parser (List Char) := take_while1 Char.isAlphanum

/-- nom's `multispace1` recognizes runs of space, tab, carriage return and
line feed. -/
def isMultispaceChar (c : Char) : Bool :=
  c.toNat = 32 || c.toNat = 9 || c.toNat = 13 || c.toNat = 10

def multispace1 : Parser (List Char) := take_while1 isMultispaceChar

/-- nom's `is_not` specialized to the single-character sets used by the
source (`"'"` and `"\n"`). -/
def is_not (bad : Char) : Parser (List Char) := take_while1 (fun c => c != bad)

def nlChar : Char := Char.ofNat 10

def quoteChar : Char := Char.ofNat 39

/-- Helper for nom's `take_until`: splits the input at the first occurrence
of `t`, returning the part before it and the part from it on. -/
def take_until_go (t : List Char) : List Char → Option (List Char × List Char)
  | [] => if t.isPrefixOf ([] : List Char) then some ([], []) else none
  | c :: cs =>
    if t.isPrefixOf (c :: cs) then some ([], c :: cs)
    else
      match take_until_go t cs with
      | some (pre, post) => some (c :: pre, post)
      | none => none

/-- nom's `take_until`: consumes input up to (excluding) the first
occurrence of `t`, failing when `t` never occurs. -/
def take_until (t : List Char) : Parser (List Char) := fun i =>
  match take_until_go t i with
  | some (pre, post) => .ok post pre
  | none => .err

def whitespace : Parser Unit := pmap multispace1 (fun _ => ())

def line_comment : Parser Unit := fun i =>
  pbind (tag ['-', '-'] i) (fun i1 _ =>
    pbind (is_not nlChar i1) (fun i2 _ => .ok i2 ()))

def multi_line_comment : Parser Unit := fun i =>
  pbind (tag ['/', '*'] i) (fun i1 _ =>
    pbind (take_until ['*', '/'] i1) (fun i2 _ =>
      pbind (tag ['*', '/'] i2) (fun i3 _ => .ok i3 ())))

def junk : Parser Unit :=
  pmap (many0 (alt2 whitespace (alt2 line_comment multi_line_comment)))
    (fun _ => ())

def parse_var : Parser String :=
  pmap
    (recognize (ppair (alt2 alpha1 (tag ['_']))
      (many0 (alt2 alphanumeric1 (tag ['_'])))))
    (fun s => String.mk s)

def parse_bool : Parser Bool :=
  alt2 (pmap (tag ['t', 'r', 'u', 'e']) (fun _ => true))
    (pmap (tag ['f', 'a', 'l', 's', 'e']) (fun _ => false))

def digitsToNat (ds : List Char) : Nat :=
  ds.foldl (fun n c => 10 * n + (c.toNat - 48)) 0

def i64Min : Int := -(2 ^ 63)

def i64Max : Int := 2 ^ 63 - 1

/-- Rust's `str::parse::<i64>` on the span recognized by `parse_int`: an
optional leading minus then decimal digits, failing outside the 64-bit
signed range. -/
def to_int (s : List Char) : Option Int :=
  match s with
  | '-' :: ds =>
    let v : Int := -(digitsToNat ds : Int)
    if i64Min ≤ v then some v else none
  | ds =>
    let v : Int := (digitsToNat ds : Int)
    if v ≤ i64Max then some v else none

def parse_int : Parser Int := fun i =>
  pbind (recognize (ppair (opt (tag ['-'])) digit1) i) (fun rest s =>
    match to_int s with
    | some v => .ok rest v
    | none => .err)

def parse_str : Parser String := fun i =>
  pbind (tag [quoteChar] i) (fun i1 _ =>
    pbind (many0 (is_not quoteChar) i1) (fun i2 parts =>
      pbind (tag [quoteChar] i2) (fun i3 _ => .ok i3 (String.mk parts.flatten))))

/-- The AST of the expression language, one constructor per variant of the
Rust `Exp` type; the `Var` newtype is flattened to `String`. -/
inductive Exp where
  | Var (name : String)
  | Int (value : Int)
  | Bool (value : Bool)
  | Str (value : String)
  | Let (binder : String) (bound : Exp) (body : Exp)
  | Select (vars : List String) (src : Exp)
  | Where (src : Exp) (pred : Exp)
  | Union (l : Exp) (r : Exp)
  | Difference (l : Exp) (r : Exp)
  | Product (l : Exp) (r : Exp)
  | Table (l : Exp) (r : Exp)
  | Row (l : Exp) (r : Exp)
  | Cell (key : String) (value : Exp)
  | Equals (l : Exp) (r : Exp)
  | Or (l : Exp) (r : Exp)
  | And (l : Exp) (r : Exp)
  | Not (e : Exp)
deriving DecidableEq, Repr

/-- The generic binary-infix builder of the source: `left junk op junk
right`, else fall through to `parse_next` on the original input. -/
def parse_binary_op {L R T : Type} (constructor : L → R → T)
    (parse_left : Parser L) (op : List Char)
    (parse_right : Parser R) (parse_next : Parser T) : Parser T := fun input =>
  let branch : PRes T :=
    pbind (parse_left input) fun i1 l =>
    pbind (junk i1) fun i2 _ =>
    pbind (tag op i2) fun i3 _ =>
    pbind (junk i3) fun i4 _ =>
    pbind (parse_right i4) fun i5 r => .ok i5 (constructor l r)
  match branch with
  | .err => parse_next input
  | r => r

/-- The generic ternary-infix builder of the source (used for `Let`). -/
def parse_ternary_op {L M R T : Type} (constructor : L → M → R → T)
    (parse_left : Parser L) (op_left : List Char)
    (parse_middle : Parser M) (op_right : List Char)
    (parse_right : Parser R) (parse_next : Parser T) : Parser T := fun input =>
  let branch : PRes T :=
    pbind (parse_left input) fun i1 l =>
    pbind (junk i1) fun i2 _ =>
    pbind (tag op_left i2) fun i3 _ =>
    pbind (junk i3) fun i4 _ =>
    pbind (parse_middle i4) fun i5 m =>
    pbind (junk i5) fun i6 _ =>
    pbind (tag op_right i6) fun i7 _ =>
    pbind (junk i7) fun i8 _ =>
    pbind (parse_right i8) fun i9 r => .ok i9 (constructor l m r)
  match branch with
  | .err => parse_next input
  | r => r

/-- The generic unary-prefix builder of the source (used for `Not`). -/
def parse_unary_op {R T : Type} (constructor : R → T)
    (op : List Char) (parse_right : Parser R) (parse_next : Parser T) :
    Parser T := fun input =>
  let branch : PRes T :=
    pbind (tag op input) fun i1 _ =>
    pbind (junk i1) fun i2 _ =>
    pbind (parse_right i2) fun i3 r => .ok i3 (constructor r)
  match branch with
  | .err => parse_next input
  | r => r

/-- The variable list of `parse_select`: one `Var` optionally followed by a
comma and another variable list, else a single variable. -/
def parse_select_varsF : Nat → Parser (List String)
  | 0 => fun _ => .oof
  | fuel + 1 =>
    alt2
      (parse_binary_op (fun v vs => v :: vs) parse_var [',']
        (parse_select_varsF fuel) fail)
      (pmap parse_var (fun v => [v]))

mutual

def parse_expF : Nat → Parser Exp
  | 0 => fun _ => .oof
  | fuel + 1 => fun input =>
    pbind (junk input) (fun i1 _ =>
      pbind (parse_letF fuel i1) (fun i2 e =>
        pbind (junk i2) (fun i3 _ => .ok i3 e)))

def parse_letF : Nat → Parser Exp
  | 0 => fun _ => .oof
  | fuel + 1 =>
    parse_ternary_op (fun l m r => Exp.Let l m r) parse_var ['=']
      (parse_letF fuel) [] (parse_letF fuel) (parse_selectF fuel)

def parse_selectF : Nat → Parser Exp
  | 0 => fun _ => .oof
  | fuel + 1 =>
    parse_binary_op (fun vs e => Exp.Select vs e) (parse_select_varsF fuel)
      ['<', '-'] (parse_selectF fuel) (parse_whereF fuel)

def parse_whereF : Nat → Parser Exp
  | 0 => fun _ => .oof
  | fuel + 1 =>
    parse_binary_op (fun l r => Exp.Where l r) (parse_unionF fuel) ['?']
      (parse_whereF fuel) (parse_unionF fuel)

def parse_unionF : Nat → Parser Exp
  | 0 => fun _ => .oof
  | fuel + 1 =>
    parse_binary_op (fun l r => Exp.Union l r) (parse_differenceF fuel) ['+']
      (parse_unionF fuel) (parse_differenceF fuel)

def parse_differenceF : Nat → Parser Exp
  | 0 => fun _ => .oof
  | fuel + 1 =>
    parse_binary_op (fun l r => Exp.Difference l r) (parse_productF fuel)
      ['-'] (parse_differenceF fuel) (parse_productF fuel)

def parse_productF : Nat → Parser Exp
  | 0 => fun _ => .oof
  | fuel + 1 =>
    parse_binary_op (fun l r => Exp.Product l r) (parse_tableF fuel) ['*']
      (parse_productF fuel) (parse_tableF fuel)

def parse_tableF : Nat → Parser Exp
  | 0 => fun _ => .oof
  | fuel + 1 =>
    parse_binary_op (fun l r => Exp.Table l r) (parse_rowF fuel) [';']
      (parse_tableF fuel) (parse_rowF fuel)

def parse_rowF : Nat → Parser Exp
  | 0 => fun _ => .oof
  | fuel + 1 =>
    parse_binary_op (fun l r => Exp.Row l r) (parse_cellF fuel) [',']
      (parse_rowF fuel) (parse_cellF fuel)

def parse_cellF : Nat → Parser Exp
  | 0 => fun _ => .oof
  | fuel + 1 =>
    parse_binary_op (fun v e => Exp.Cell v e) parse_var [':']
      (parse_cellF fuel) (parse_equalsF fuel)

def parse_equalsF : Nat → Parser Exp
  | 0 => fun _ => .oof
  | fuel + 1 =>
    parse_binary_op (fun l r => Exp.Equals l r) (parse_orF fuel) ['=', '=']
      (parse_equalsF fuel) (parse_orF fuel)

def parse_orF : Nat → Parser Exp
  | 0 => fun _ => .oof
  | fuel + 1 =>
    parse_binary_op (fun l r => Exp.Or l r) (parse_andF fuel) ['|']
      (parse_orF fuel) (parse_andF fuel)

def parse_andF : Nat → Parser Exp
  | 0 => fun _ => .oof
  | fuel + 1 =>
    parse_binary_op (fun l r => Exp.And l r) (parse_notF fuel) ['&']
      (parse_andF fuel) (parse_notF fuel)

def parse_notF : Nat → Parser Exp
  | 0 => fun _ => .oof
  | fuel + 1 =>
    parse_unary_op (fun e => Exp.Not e) ['!'] (parse_notF fuel)
      (parse_atomF fuel)

def parse_atomF : Nat → Parser Exp
  | 0 => fun _ => .oof
  | fuel + 1 =>
    alt2 (parse_parensF fuel)
      (alt2 (pmap parse_bool Exp.Bool)
        (alt2 (pmap parse_int Exp.Int)
          (alt2 (pmap parse_str Exp.Str) (pmap parse_var Exp.Var))))

def parse_parensF : Nat → Parser Exp
  | 0 => fun _ => .oof
  | fuel + 1 => fun input =>
    pbind (tag ['('] input) (fun i1 _ =>
      pbind (parse_expF fuel i1) (fun i2 e =>
        pbind (tag [')'] i2) (fun i3 _ => .ok i3 e)))

end

/-- Fuel that always suffices for an input of the given length (established
by `parse_exp_total` below): the cascade re-enters a rule at the same
position only at one of the 17 strictly ordered precedence levels, and
every other recursive call strictly consumes input. -/
def FUEL (i : List Char) : Nat := 18 * i.length + 18

def parse_exp : Parser Exp := fun i => parse_expF (FUEL i) i

def parse_let : Parser Exp := fun i => parse_letF (FUEL i) i

def parse_select : Parser Exp := fun i => parse_selectF (FUEL i) i

def parse_select_vars : Parser (List String) := fun i =>
  parse_select_varsF (FUEL i) i

def parse_where : Parser Exp := fun i => parse_whereF (FUEL i) i

def parse_union : Parser Exp := fun i => parse_unionF (FUEL i) i

def parse_difference : Parser Exp := fun i => parse_differenceF (FUEL i) i

def parse_product : Parser Exp := fun i => parse_productF (FUEL i) i

def parse_table : Parser Exp := fun i => parse_tableF (FUEL i) i

def parse_row : Parser Exp := fun i => parse_rowF (FUEL i) i

def parse_cell : Parser Exp := fun i => parse_cellF (FUEL i) i

def parse_equals : Parser Exp := fun i => parse_equalsF (FUEL i) i

def parse_or : Parser Exp := fun i => parse_orF (FUEL i) i

def parse_and : Parser Exp := fun i => parse_andF (FUEL i) i

def parse_not : Parser Exp := fun i => parse_notF (FUEL i) i

def parse_atom : Parser Exp := fun i => parse_atomF (FUEL i) i

/-- First character of an identifier: a letter or an underscore. -/
def identStart (c : Char) : Bool := c.isAlpha || c == '_'

/-- Continuation character of an identifier: letter, digit or underscore. -/
def identChar (c : Char) : Bool := c.isAlphanum || c == '_'

/-- Does the input start with an identifier-continuation character? -/
def headIdent : List Char → Bool
  | [] => false
  | c :: _ => identChar c

/-- Is the first input character equal to `d`? -/
def headIs (rest : List Char) (d : Char) : Bool :=
  match rest with
  | [] => false
  | c :: _ => d == c

/-- Does the input start with a decimal digit? -/
def headDigit : List Char → Bool
  | [] => false
  | c :: _ => c.isDigit

/-- Does the input start with junk (whitespace or a comment opener)? -/
def startsJunkB : List Char → Bool
  | [] => false
  | [c1] => isMultispaceChar c1
  | c1 :: c2 :: _ =>
    isMultispaceChar c1 || ('-' == c1 && '-' == c2) || ('/' == c1 && '*' == c2)

/-- Does `t` occur as a contiguous substring of the input? -/
def hasSubstr (t : List Char) : List Char → Bool
  | [] => t.isPrefixOf []
  | c :: cs => t.isPrefixOf (c :: cs) || hasSubstr t cs

/-- The canonical example program of the source's test suite, with all
optional incidental text stripped. -/
def denseStaff : List Char :=
  ("Staff=name:'Alice',id:1;name:'Bob',id:2bob=name<-Staff?name=='Bob'bob").toList

/-- The same program with newlines, indentation, line comments and block
comments inserted between tokens (the commented form of the source's test
suite). -/
def commentedStaff : List Char :=
  ("\n/* welcome to\nmy database */\n\nStaff =\n  name: 'Alice', id: 1; -- first row\n  name: 'Bob', id: 2    -- second row\n\nbob = name /* columns... */ <- Staff ? name == 'Bob'\n\nbob\n").toList

/-- The AST both renderings of the example program parse to. -/
def staffProgram : Exp :=
  .Let "Staff"
    (.Table
      (.Row (.Cell "name" (.Str "Alice")) (.Cell "id" (.Int 1)))
      (.Row (.Cell "name" (.Str "Bob")) (.Cell "id" (.Int 2))))
    (.Let "bob"
      (.Select ["name"]
        (.Where (.Var "Staff") (.Equals (.Var "name") (.Str "Bob"))))
      (.Var "bob"))

/-- A parser only ever returns a suffix of its input (stated on lengths). -/
def Consumes {α : Type} (p : Parser α) : Prop :=
  ∀ i rest v, p i = .ok rest v → rest.length ≤ i.length

/-- A parser consumes at least one character whenever it succeeds. -/
def Strict {α : Type} (p : Parser α) : Prop :=
  ∀ i rest v, p i = .ok rest v → rest.length < i.length

/-- A parser never reports fuel exhaustion. -/
def NeverOof {α : Type} (p : Parser α) : Prop := ∀ i, p i ≠ .oof

theorem consumes_of_strict {α : Type} {p : Parser α} (h : Strict p) :
    Consumes p := fun i rest v hok => le_of_lt (h i rest v hok)

theorem consumes_tag (t : List Char) : Consumes (tag t) := by
  intro i rest v h
  simp only [tag] at h
  split at h
  · cases h; simp [List.length_drop]
  · cases h

theorem tag_ok_cases {t : List Char} {i rest : List Char} {v : List Char}
    (h : tag t i = .ok rest v) :
    t.isPrefixOf i = true ∧ rest = i.drop t.length ∧ v = t := by
  simp only [tag] at h
  split at h
  · cases h; simp_all
  · cases h

theorem pbind_ok {α β : Type} {r : PRes α} {f : List Char → α → PRes β}
    {rest : List Char} {v : β} (h : pbind r f = .ok rest v) :
    ∃ r1 a, r = .ok r1 a ∧ f r1 a = .ok rest v := by
  cases r with
  | ok r1 a => exact ⟨r1, a, rfl, h⟩
  | err => simp [pbind] at h
  | oof => simp [pbind] at h

theorem consumes_take_while1 (cl : Char → Bool) : Consumes (take_while1 cl) := by
  intro i rest v h
  simp only [take_while1] at h
  split at h
  · cases h
  · cases h
    exact List.Sublist.length_le (List.dropWhile_sublist cl)

theorem take_while1_split (cl : Char → Bool) {i rest : List Char}
    {v : List Char} (h : take_while1 cl i = .ok rest v) :
    v = i.takeWhile cl ∧ rest = i.dropWhile cl ∧ v ≠ [] := by
  simp only [take_while1] at h
  cases hw : i.takeWhile cl with
  | nil => simp only [hw] at h; exact PRes.noConfusion h
  | cons a as =>
    simp only [hw] at h
    cases h
    exact ⟨by simp [hw], rfl, by simp⟩

theorem length_takeWhile_add_dropWhile (cl : Char → Bool) (i : List Char) :
    (i.takeWhile cl).length + (i.dropWhile cl).length = i.length := by
  induction i with
  | nil => simp
  | cons c cs ih =>
    by_cases h : cl c <;> simp [List.takeWhile_cons, List.dropWhile_cons, h] <;> omega

theorem strict_take_while1 (cl : Char → Bool) : Strict (take_while1 cl) := by
  intro i rest v h
  obtain ⟨hv, hrest, hne⟩ := take_while1_split cl h
  subst hrest
  subst hv
  have hlen := length_takeWhile_add_dropWhile cl i
  have hpos : 0 < (i.takeWhile cl).length := List.length_pos.mpr hne
  omega

theorem take_until_go_post_le (t : List Char) :
    ∀ i pre post, take_until_go t i = some (pre, post) →
      post.length ≤ i.length := by
  intro i
  induction i with
  | nil =>
    intro pre post h
    simp only [take_until_go] at h
    split at h
    · cases h; simp
    · cases h
  | cons c cs ih =>
    intro pre post h
    simp only [take_until_go] at h
    split at h
    · cases h; simp
    · cases hgo : take_until_go t cs with
      | none => simp only [hgo] at h; exact Option.noConfusion h
      | some pp =>
        simp only [hgo] at h
        cases h
        simpa using Nat.le_succ_of_le (ih pp.1 pp.2 (by rw [hgo]))

theorem consumes_take_until (t : List Char) : Consumes (take_until t) := by
  intro i rest v h
  simp only [take_until] at h
  cases hgo : take_until_go t i with
  | none => simp only [hgo] at h; exact PRes.noConfusion h
  | some pp =>
    simp only [hgo] at h
    cases h
    exact take_until_go_post_le t i pp.1 pp.2 (by rw [hgo])

theorem consumes_pmap {α β : Type} {p : Parser α} (f : α → β)
    (hp : Consumes p) : Consumes (pmap p f) := by
  intro i rest v h
  simp only [pmap] at h
  obtain ⟨r1, a, h1, h2⟩ := pbind_ok h
  cases h2
  exact hp i rest a h1

theorem consumes_alt2 {α : Type} {p q : Parser α}
    (hp : Consumes p) (hq : Consumes q) : Consumes (alt2 p q) := by
  intro i rest v h
  simp only [alt2] at h
  cases hpi : p i with
  | ok r a => simp only [hpi] at h; cases h; exact hp i rest v hpi
  | err => simp only [hpi] at h; exact hq i rest v h
  | oof => simp only [hpi] at h; exact PRes.noConfusion h

theorem consumes_opt {α : Type} {p : Parser α} (hp : Consumes p) :
    Consumes (opt p) := by
  intro i rest v h
  simp only [opt] at h
  cases hpi : p i with
  | ok r a => simp only [hpi] at h; cases h; exact hp i rest a hpi
  | err => simp only [hpi] at h; cases h; exact le_refl _
  | oof => simp only [hpi] at h; exact PRes.noConfusion h

theorem consumes_recognize {α : Type} {p : Parser α} (hp : Consumes p) :
    Consumes (recognize p) := by
  intro i rest v h
  simp only [recognize] at h
  obtain ⟨r1, a, h1, h2⟩ := pbind_ok h
  cases h2
  exact hp i rest a h1

theorem consumes_ppair {α β : Type} {p : Parser α} {q : Parser β}
    (hp : Consumes p) (hq : Consumes q) : Consumes (ppair p q) := by
  intro i rest v h
  simp only [ppair] at h
  obtain ⟨r1, a, h1, h2⟩ := pbind_ok h
  obtain ⟨r2, b, h3, h4⟩ := pbind_ok h2
  cases h4
  exact le_trans (hq r1 rest b h3) (hp i r1 a h1)

theorem consumes_many0Go {α : Type} {p : Parser α} :
    ∀ n i rest vs, many0Go p n i = .ok rest vs → rest.length ≤ i.length := by
  intro n
  induction n with
  | zero => intro i rest vs h; simp [many0Go] at h
  | succ m ih =>
    intro i rest vs h
    simp only [many0Go] at h
    cases hpi : p i with
    | err => simp only [hpi] at h; cases h; exact le_refl _
    | oof => simp only [hpi] at h; exact PRes.noConfusion h
    | ok r a =>
      simp only [hpi] at h
      split at h
      · rename_i hlt
        obtain ⟨r2, as, hgo, h2⟩ := pbind_ok h
        cases h2
        exact le_trans (ih r rest as hgo) (le_of_lt hlt)
      · cases h

theorem consumes_many0 {α : Type} (p : Parser α) : Consumes (many0 p) := by
  intro i rest vs h
  exact consumes_many0Go (i.length + 1) i rest vs h

theorem consumes_line_comment : Consumes line_comment := by
  intro i rest v h
  simp only [line_comment] at h
  obtain ⟨r1, a1, h1, h2⟩ := pbind_ok h
  obtain ⟨r2, a2, h3, h4⟩ := pbind_ok h2
  cases h4
  exact le_trans (consumes_take_while1 _ r1 rest a2 h3) (consumes_tag _ i r1 a1 h1)

theorem consumes_multi_line_comment : Consumes multi_line_comment := by
  intro i rest v h
  simp only [multi_line_comment] at h
  obtain ⟨r1, a1, h1, h2⟩ := pbind_ok h
  obtain ⟨r2, a2, h3, h4⟩ := pbind_ok h2
  obtain ⟨r3, a3, h5, h6⟩ := pbind_ok h4
  cases h6
  exact le_trans (consumes_tag _ r2 rest a3 h5)
    (le_trans (consumes_take_until _ r1 r2 a2 h3) (consumes_tag _ i r1 a1 h1))

theorem consumes_junk : Consumes junk :=
  consumes_pmap _ (consumes_many0 _)

theorem strict_tag {t : List Char} (ht : t ≠ []) : Strict (tag t) := by
  intro i rest v h
  obtain ⟨hpre, hrest, hv⟩ := tag_ok_cases h
  subst hrest
  have hle : t.length ≤ i.length :=
    List.IsPrefix.length_le (List.isPrefixOf_iff_prefix.mp hpre)
  have ht' : 0 < t.length := List.length_pos.mpr ht
  simp only [List.length_drop]
  omega

theorem strict_pmap {α β : Type} {p : Parser α} (f : α → β)
    (hp : Strict p) : Strict (pmap p f) := by
  intro i rest v h
  simp only [pmap] at h
  obtain ⟨r1, a, h1, h2⟩ := pbind_ok h
  cases h2
  exact hp i rest a h1

theorem strict_alt2 {α : Type} {p q : Parser α}
    (hp : Strict p) (hq : Strict q) : Strict (alt2 p q) := by
  intro i rest v h
  simp only [alt2] at h
  cases hpi : p i with
  | ok r a => simp only [hpi] at h; cases h; exact hp i rest v hpi
  | err => simp only [hpi] at h; exact hq i rest v h
  | oof => simp only [hpi] at h; exact PRes.noConfusion h

theorem strict_ppair_left {α β : Type} {p : Parser α} {q : Parser β}
    (hp : Strict p) (hq : Consumes q) : Strict (ppair p q) := by
  intro i rest v h
  simp only [ppair] at h
  obtain ⟨r1, a, h1, h2⟩ := pbind_ok h
  obtain ⟨r2, b, h3, h4⟩ := pbind_ok h2
  cases h4
  exact lt_of_le_of_lt (hq r1 rest b h3) (hp i r1 a h1)

theorem strict_recognize {α : Type} {p : Parser α} (hp : Strict p) :
    Strict (recognize p) := by
  intro i rest v h
  simp only [recognize] at h
  obtain ⟨r1, a, h1, h2⟩ := pbind_ok h
  cases h2
  exact hp i rest a h1

theorem strict_parse_var : Strict parse_var :=
  strict_pmap _ (strict_recognize (strict_ppair_left
    (strict_alt2 (strict_take_while1 _) (strict_tag (by simp)))
    (consumes_many0 _)))

theorem consumes_parse_var : Consumes parse_var :=
  consumes_of_strict strict_parse_var

theorem strict_whitespace : Strict whitespace :=
  strict_pmap _ (strict_take_while1 _)

theorem strict_line_comment : Strict line_comment := by
  intro i rest v h
  simp only [line_comment] at h
  obtain ⟨r1, a1, h1, h2⟩ := pbind_ok h
  obtain ⟨r2, a2, h3, h4⟩ := pbind_ok h2
  cases h4
  exact lt_of_lt_of_le (strict_take_while1 _ r1 rest a2 h3)
    (consumes_tag _ i r1 a1 h1)

theorem strict_multi_line_comment : Strict multi_line_comment := by
  intro i rest v h
  simp only [multi_line_comment] at h
  obtain ⟨r1, a1, h1, h2⟩ := pbind_ok h
  obtain ⟨r2, a2, h3, h4⟩ := pbind_ok h2
  obtain ⟨r3, a3, h5, h6⟩ := pbind_ok h4
  cases h6
  exact lt_of_le_of_lt
    (le_trans (consumes_tag _ r2 rest a3 h5) (consumes_take_until _ r1 r2 a2 h3))
    (strict_tag (by simp) i r1 a1 h1)

theorem pbind_ne_oof {α β : Type} {r : PRes α} {f : List Char → α → PRes β}
    (hr : r ≠ .oof) (hf : ∀ rest a, f rest a ≠ .oof) : pbind r f ≠ .oof := by
  cases r with
  | ok r1 a => exact hf r1 a
  | err => simp [pbind]
  | oof => exact absurd rfl hr

theorem neveroof_tag (t : List Char) : NeverOof (tag t) := by
  intro i
  simp only [tag]
  split <;> simp

theorem neveroof_take_while1 (cl : Char → Bool) : NeverOof (take_while1 cl) := by
  intro i
  simp only [take_while1]
  cases i.takeWhile cl <;> simp

theorem neveroof_take_until (t : List Char) : NeverOof (take_until t) := by
  intro i
  simp only [take_until]
  cases take_until_go t i with
  | none => simp
  | some pp => simp

theorem neveroof_pmap {α β : Type} {p : Parser α} (f : α → β)
    (hp : NeverOof p) : NeverOof (pmap p f) := by
  intro i
  simp only [pmap]
  exact pbind_ne_oof (hp i) (by intro rest a; simp)

theorem neveroof_alt2 {α : Type} {p q : Parser α}
    (hp : NeverOof p) (hq : NeverOof q) : NeverOof (alt2 p q) := by
  intro i
  simp only [alt2]
  cases hpi : p i with
  | ok r a => simp
  | err => exact hq i
  | oof => exact absurd hpi (hp i)

theorem neveroof_line_comment : NeverOof line_comment := by
  intro i
  simp only [line_comment]
  exact pbind_ne_oof (neveroof_tag _ i) (by
    intro rest a
    exact pbind_ne_oof (neveroof_take_while1 _ rest) (by intro r2 a2; simp))

theorem neveroof_multi_line_comment : NeverOof multi_line_comment := by
  intro i
  simp only [multi_line_comment]
  exact pbind_ne_oof (neveroof_tag _ i) (by
    intro r1 a1
    exact pbind_ne_oof (neveroof_take_until _ r1) (by
      intro r2 a2
      exact pbind_ne_oof (neveroof_tag _ r2) (by intro r3 a3; simp)))

theorem many0Go_ok {α : Type} {p : Parser α} (hs : Strict p) (ho : NeverOof p) :
    ∀ n i, i.length < n → ∃ r vs, many0Go p n i = .ok r vs := by
  intro n
  induction n with
  | zero => intro i h; omega
  | succ m ih =>
    intro i hlen
    simp only [many0Go]
    cases hpi : p i with
    | err => exact ⟨i, [], rfl⟩
    | oof => exact absurd hpi (ho i)
    | ok r a =>
      have hr : r.length < i.length := hs i r a hpi
      obtain ⟨r2, vs, hgo⟩ := ih r (by omega)
      refine ⟨r2, a :: vs, ?_⟩
      simp [hr, hgo, pbind]

theorem junk_ok (i : List Char) :
    ∃ r, junk i = .ok r () ∧ r.length ≤ i.length := by
  obtain ⟨r, vs, hgo⟩ := many0Go_ok
    (strict_alt2 strict_whitespace
      (strict_alt2 strict_line_comment strict_multi_line_comment))
    (neveroof_alt2 (neveroof_pmap _ (neveroof_take_while1 _))
      (neveroof_alt2 neveroof_line_comment neveroof_multi_line_comment))
    (i.length + 1) i (by omega)
  refine ⟨r, ?_, ?_⟩
  · simp [junk, pmap, many0, hgo, pbind]
  · exact consumes_many0Go _ i r vs hgo

theorem many0Go_ok_stop {α : Type} {p : Parser α} :
    ∀ n i rest vs, many0Go p n i = .ok rest vs → p rest = .err := by
  intro n
  induction n with
  | zero => intro i rest vs h; simp [many0Go] at h
  | succ m ih =>
    intro i rest vs h
    simp only [many0Go] at h
    cases hpi : p i with
    | err => simp only [hpi] at h; cases h; exact hpi
    | oof => simp only [hpi] at h; exact PRes.noConfusion h
    | ok r a =>
      simp only [hpi] at h
      split at h
      · obtain ⟨r2, as, hgo, h2⟩ := pbind_ok h
        cases h2
        exact ih r rest as hgo
      · cases h

theorem junk_idem {i r : List Char} {v : Unit} (h : junk i = .ok r v) :
    junk r = .ok r () := by
  simp only [junk, pmap, many0] at h
  obtain ⟨r1, vs, h1, h2⟩ := pbind_ok h
  cases h2
  have hstop := many0Go_ok_stop (i.length + 1) i r vs h1
  have : many0Go (alt2 whitespace (alt2 line_comment multi_line_comment))
      (r.length + 1) r = .ok r [] := by
    simp [many0Go, hstop]
  simp [junk, pmap, many0, this, pbind]

theorem consumes_fail {α : Type} : Consumes (fail (α := α)) := by
  intro i rest v h
  simp [fail] at h

theorem neveroof_fail {α : Type} : NeverOof (fail (α := α)) := by
  intro i
  simp [fail]

theorem consumes_parse_bool : Consumes parse_bool :=
  consumes_alt2 (consumes_pmap _ (consumes_tag _))
    (consumes_pmap _ (consumes_tag _))

theorem neveroof_parse_bool : NeverOof parse_bool :=
  neveroof_alt2 (neveroof_pmap _ (neveroof_tag _))
    (neveroof_pmap _ (neveroof_tag _))

theorem neveroof_opt {α : Type} {p : Parser α} (hp : NeverOof p) :
    NeverOof (opt p) := by
  intro i
  simp only [opt]
  cases hpi : p i with
  | ok r a => simp
  | err => simp
  | oof => exact absurd hpi (hp i)

theorem neveroof_recognize {α : Type} {p : Parser α} (hp : NeverOof p) :
    NeverOof (recognize p) := by
  intro i
  simp only [recognize]
  exact pbind_ne_oof (hp i) (by intro r a; simp)

theorem neveroof_ppair {α β : Type} {p : Parser α} {q : Parser β}
    (hp : NeverOof p) (hq : NeverOof q) : NeverOof (ppair p q) := by
  intro i
  simp only [ppair]
  exact pbind_ne_oof (hp i) (fun r a =>
    pbind_ne_oof (hq r) (by intro r2 b; simp))

theorem neveroof_many0 {α : Type} {p : Parser α} (hs : Strict p)
    (ho : NeverOof p) : NeverOof (many0 p) := by
  intro i
  obtain ⟨r, vs, hgo⟩ := many0Go_ok hs ho (i.length + 1) i (by omega)
  simp [many0, hgo]

theorem neveroof_parse_var : NeverOof parse_var :=
  neveroof_pmap _ (neveroof_recognize (neveroof_ppair
    (neveroof_alt2 (neveroof_take_while1 _) (neveroof_tag _))
    (neveroof_many0 (strict_alt2 (strict_take_while1 _) (strict_tag (by simp)))
      (neveroof_alt2 (neveroof_take_while1 _) (neveroof_tag _)))))

theorem consumes_parse_int : Consumes parse_int := by
  intro i rest v h
  simp only [parse_int] at h
  obtain ⟨r1, s, h1, h2⟩ := pbind_ok h
  cases hti : to_int s with
  | none => simp only [hti] at h2; exact PRes.noConfusion h2
  | some n =>
    simp only [hti] at h2
    cases h2
    exact consumes_recognize (consumes_ppair
      (consumes_opt (consumes_tag _)) (consumes_take_while1 _)) i rest s h1

theorem neveroof_parse_int : NeverOof parse_int := by
  intro i
  simp only [parse_int]
  refine pbind_ne_oof (neveroof_recognize (neveroof_ppair
    (neveroof_opt (neveroof_tag _)) (neveroof_take_while1 _)) i) ?_
  intro r s
  cases to_int s <;> simp

theorem consumes_parse_str : Consumes parse_str := by
  intro i rest v h
  simp only [parse_str] at h
  obtain ⟨r1, a1, h1, h2⟩ := pbind_ok h
  obtain ⟨r2, a2, h3, h4⟩ := pbind_ok h2
  obtain ⟨r3, a3, h5, h6⟩ := pbind_ok h4
  cases h6
  exact le_trans (consumes_tag _ r2 rest a3 h5)
    (le_trans (consumes_many0 _ r1 r2 a2 h3) (consumes_tag _ i r1 a1 h1))

theorem neveroof_parse_str : NeverOof parse_str := by
  intro i
  simp only [parse_str]
  refine pbind_ne_oof (neveroof_tag _ i) ?_
  intro r1 a1
  refine pbind_ne_oof (neveroof_many0 (strict_take_while1 _)
    (neveroof_take_while1 _) r1) ?_
  intro r2 a2
  refine pbind_ne_oof (neveroof_tag _ r2) ?_
  intro r3 a3
  simp

theorem neveroof_junk : NeverOof junk := by
  intro i
  obtain ⟨r, hr, _⟩ := junk_ok i
  simp [hr]

theorem consumes_parse_binary_op {L R T : Type} {c : L → R → T}
    {pl : Parser L} {op : List Char} {pr : Parser R} {pn : Parser T}
    (hl : Consumes pl) (hr : Consumes pr) (hn : Consumes pn) :
    Consumes (parse_binary_op c pl op pr pn) := by
  intro i rest v h
  simp only [parse_binary_op] at h
  cases hpl : pl i with
  | err => simp only [hpl, pbind] at h; exact hn i rest v h
  | oof => simp only [hpl, pbind] at h; exact PRes.noConfusion h
  | ok i1 l =>
    obtain ⟨i2, hj, hj2⟩ := junk_ok i1
    simp only [hpl, hj, pbind] at h
    cases htag : tag op i2 with
    | err => simp only [htag, pbind] at h; exact hn i rest v h
    | oof => simp only [htag, pbind] at h; exact PRes.noConfusion h
    | ok i3 t =>
      obtain ⟨i4, hj3, hj4⟩ := junk_ok i3
      simp only [htag, hj3, pbind] at h
      cases hpr : pr i4 with
      | err => simp only [hpr, pbind] at h; exact hn i rest v h
      | oof => simp only [hpr, pbind] at h; exact PRes.noConfusion h
      | ok i5 r =>
        simp only [hpr, pbind] at h
        cases h
        exact le_trans (hr i4 rest r hpr) (le_trans hj4
          (le_trans (consumes_tag _ i2 i3 t htag)
            (le_trans hj2 (hl i i1 l hpl))))

theorem consumes_parse_ternary_op {L M R T : Type} {c : L → M → R → T}
    {pl : Parser L} {opl : List Char} {pm : Parser M} {opr : List Char}
    {pr : Parser R} {pn : Parser T}
    (hl : Consumes pl) (hm : Consumes pm) (hr : Consumes pr)
    (hn : Consumes pn) :
    Consumes (parse_ternary_op c pl opl pm opr pr pn) := by
  intro i rest v h
  simp only [parse_ternary_op] at h
  cases hpl : pl i with
  | err => simp only [hpl, pbind] at h; exact hn i rest v h
  | oof => simp only [hpl, pbind] at h; exact PRes.noConfusion h
  | ok i1 l =>
    obtain ⟨i2, hj, hj2⟩ := junk_ok i1
    simp only [hpl, hj, pbind] at h
    cases htag : tag opl i2 with
    | err => simp only [htag, pbind] at h; exact hn i rest v h
    | oof => simp only [htag, pbind] at h; exact PRes.noConfusion h
    | ok i3 t =>
      obtain ⟨i4, hj3, hj4⟩ := junk_ok i3
      simp only [htag, hj3, pbind] at h
      cases hpm : pm i4 with
      | err => simp only [hpm, pbind] at h; exact hn i rest v h
      | oof => simp only [hpm, pbind] at h; exact PRes.noConfusion h
      | ok i5 m =>
        obtain ⟨i6, hj5, hj6⟩ := junk_ok i5
        simp only [hpm, hj5, pbind] at h
        cases htag2 : tag opr i6 with
        | err => simp only [htag2, pbind] at h; exact hn i rest v h
        | oof => simp only [htag2, pbind] at h; exact PRes.noConfusion h
        | ok i7 t2 =>
          obtain ⟨i8, hj7, hj8⟩ := junk_ok i7
          simp only [htag2, hj7, pbind] at h
          cases hpr : pr i8 with
          | err => simp only [hpr, pbind] at h; exact hn i rest v h
          | oof => simp only [hpr, pbind] at h; exact PRes.noConfusion h
          | ok i9 r =>
            simp only [hpr, pbind] at h
            cases h
            have c1 : i8.length ≤ i4.length :=
              le_trans hj8 (le_trans (consumes_tag _ i6 i7 t2 htag2)
                (le_trans hj6 (hm i4 i5 m hpm)))
            have c2 : i4.length ≤ i.length :=
              le_trans hj4 (le_trans (consumes_tag _ i2 i3 t htag)
                (le_trans hj2 (hl i i1 l hpl)))
            exact le_trans (hr i8 rest r hpr) (le_trans c1 c2)

theorem consumes_parse_unary_op {R T : Type} {c : R → T}
    {op : List Char} {pr : Parser R} {pn : Parser T}
    (hr : Consumes pr) (hn : Consumes pn) :
    Consumes (parse_unary_op c op pr pn) := by
  intro i rest v h
  simp only [parse_unary_op] at h
  cases htag : tag op i with
  | err => simp only [htag, pbind] at h; exact hn i rest v h
  | oof => simp only [htag, pbind] at h; exact PRes.noConfusion h
  | ok i1 t =>
    obtain ⟨i2, hj, hj2⟩ := junk_ok i1
    simp only [htag, hj, pbind] at h
    cases hpr : pr i2 with
    | err => simp only [hpr, pbind] at h; exact hn i rest v h
    | oof => simp only [hpr, pbind] at h; exact PRes.noConfusion h
    | ok i3 r =>
      simp only [hpr, pbind] at h
      cases h
      exact le_trans (hr i2 rest r hpr)
        (le_trans hj2 (consumes_tag _ i i1 t htag))

theorem consumes_select_varsF : ∀ fuel, Consumes (parse_select_varsF fuel) := by
  intro fuel
  induction fuel with
  | zero => intro i rest v h; simp [parse_select_varsF] at h
  | succ m ih =>
    simp only [parse_select_varsF]
    exact consumes_alt2
      (consumes_parse_binary_op consumes_parse_var ih consumes_fail)
      (consumes_pmap _ consumes_parse_var)

theorem cascade_consumes : ∀ fuel,
    Consumes (parse_expF fuel) ∧ Consumes (parse_letF fuel) ∧
    Consumes (parse_selectF fuel) ∧ Consumes (parse_whereF fuel) ∧
    Consumes (parse_unionF fuel) ∧ Consumes (parse_differenceF fuel) ∧
    Consumes (parse_productF fuel) ∧ Consumes (parse_tableF fuel) ∧
    Consumes (parse_rowF fuel) ∧ Consumes (parse_cellF fuel) ∧
    Consumes (parse_equalsF fuel) ∧ Consumes (parse_orF fuel) ∧
    Consumes (parse_andF fuel) ∧ Consumes (parse_notF fuel) ∧
    Consumes (parse_atomF fuel) ∧ Consumes (parse_parensF fuel) := by
  intro fuel
  induction fuel with
  | zero =>
    refine ⟨?_, ?_, ?_, ?_, ?_, ?_, ?_, ?_, ?_, ?_, ?_, ?_, ?_, ?_, ?_, ?_⟩ <;>
      (intro i rest v h; exact PRes.noConfusion h)
  | succ m ih =>
    obtain ⟨ihExp, ihLet, ihSel, ihWhere, ihUnion, ihDiff, ihProd, ihTable,
      ihRow, ihCell, ihEq, ihOr, ihAnd, ihNot, ihAtom, ihParens⟩ := ih
    refine ⟨?_, ?_, ?_, ?_, ?_, ?_, ?_, ?_, ?_, ?_, ?_, ?_, ?_, ?_, ?_, ?_⟩
    · intro i rest v h
      simp only [parse_expF] at h
      obtain ⟨i1, u1, h1, h2⟩ := pbind_ok h
      obtain ⟨i2, e, h3, h4⟩ := pbind_ok h2
      obtain ⟨i3, u2, h5, h6⟩ := pbind_ok h4
      cases h6
      exact le_trans (consumes_junk i2 rest u2 h5)
        (le_trans (ihLet i1 i2 v h3) (consumes_junk i i1 u1 h1))
    · exact consumes_parse_ternary_op consumes_parse_var ihLet ihLet ihSel
    · exact consumes_parse_binary_op (consumes_select_varsF m) ihSel ihWhere
    · exact consumes_parse_binary_op ihUnion ihWhere ihUnion
    · exact consumes_parse_binary_op ihDiff ihUnion ihDiff
    · exact consumes_parse_binary_op ihProd ihDiff ihProd
    · exact consumes_parse_binary_op ihTable ihProd ihTable
    · exact consumes_parse_binary_op ihRow ihTable ihRow
    · exact consumes_parse_binary_op ihCell ihRow ihCell
    · exact consumes_parse_binary_op consumes_parse_var ihCell ihEq
    · exact consumes_parse_binary_op ihOr ihEq ihOr
    · exact consumes_parse_binary_op ihAnd ihOr ihAnd
    · exact consumes_parse_binary_op ihNot ihAnd ihNot
    · exact consumes_parse_unary_op ihNot ihAtom
    · exact consumes_alt2 ihParens (consumes_alt2
        (consumes_pmap _ consumes_parse_bool)
        (consumes_alt2 (consumes_pmap _ consumes_parse_int)
          (consumes_alt2 (consumes_pmap _ consumes_parse_str)
            (consumes_pmap _ consumes_parse_var))))
    · intro i rest v h
      simp only [parse_parensF] at h
      obtain ⟨i1, t1, h1, h2⟩ := pbind_ok h
      obtain ⟨i2, e, h3, h4⟩ := pbind_ok h2
      obtain ⟨i3, t2, h5, h6⟩ := pbind_ok h4
      cases h6
      exact le_trans (consumes_tag _ i2 rest t2 h5)
        (le_trans (ihExp i1 i2 v h3) (consumes_tag _ i i1 t1 h1))

theorem pbind_ne_oof2 {α β : Type} {r : PRes α} {f : List Char → α → PRes β}
    (hr : r ≠ .oof)
    (hf : ∀ rest a, r = .ok rest a → f rest a ≠ .oof) : pbind r f ≠ .oof := by
  cases r with
  | ok r1 a => exact hf r1 a rfl
  | err => simp [pbind]
  | oof => exact absurd rfl hr

theorem alt2_ne_oof {α : Type} {p q : Parser α} {i : List Char}
    (hp : p i ≠ .oof) (hq : q i ≠ .oof) : alt2 p q i ≠ .oof := by
  simp only [alt2]
  cases hpi : p i with
  | ok r a => simp
  | err => exact hq
  | oof => exact absurd hpi hp

theorem nooof_parse_binary_op {L R T : Type} {c : L → R → T}
    {pl : Parser L} {op : List Char} {pr : Parser R} {pn : Parser T}
    {i : List Char}
    (hl : pl i ≠ .oof) (hlc : Consumes pl) (hop : op ≠ [])
    (hr : ∀ j : List Char, j.length < i.length → pr j ≠ .oof)
    (hn : pn i ≠ .oof) : parse_binary_op c pl op pr pn i ≠ .oof := by
  simp only [parse_binary_op]
  cases hpl : pl i with
  | err => simp only [pbind]; exact hn
  | oof => exact absurd hpl hl
  | ok i1 l =>
    obtain ⟨i2, hj, hj2⟩ := junk_ok i1
    simp only [hj, pbind]
    cases htag : tag op i2 with
    | err => simp only [pbind]; exact hn
    | oof => exact absurd htag (neveroof_tag op i2)
    | ok i3 t =>
      obtain ⟨i4, hj3, hj4⟩ := junk_ok i3
      simp only [hj3, pbind]
      have hi3 : i3.length < i2.length := strict_tag hop i2 i3 t htag
      have hi4 : i4.length < i.length := by
        have := hlc i i1 l hpl
        omega
      cases hpr : pr i4 with
      | err => simp only [pbind]; exact hn
      | oof => exact absurd hpr (hr i4 hi4)
      | ok i5 r => simp only [pbind]; simp

theorem nooof_parse_ternary_op {L M R T : Type} {c : L → M → R → T}
    {pl : Parser L} {opl : List Char} {pm : Parser M} {opr : List Char}
    {pr : Parser R} {pn : Parser T} {i : List Char}
    (hl : pl i ≠ .oof) (hls : Strict pl) (hopl : opl ≠ [])
    (hm : ∀ j : List Char, j.length < i.length → pm j ≠ .oof)
    (hmc : Consumes pm)
    (hr : ∀ j : List Char, j.length < i.length → pr j ≠ .oof)
    (hn : pn i ≠ .oof) :
    parse_ternary_op c pl opl pm opr pr pn i ≠ .oof := by
  simp only [parse_ternary_op]
  cases hpl : pl i with
  | err => simp only [pbind]; exact hn
  | oof => exact absurd hpl hl
  | ok i1 l =>
    obtain ⟨i2, hj, hj2⟩ := junk_ok i1
    simp only [hj, pbind]
    cases htag : tag opl i2 with
    | err => simp only [pbind]; exact hn
    | oof => exact absurd htag (neveroof_tag opl i2)
    | ok i3 t =>
      obtain ⟨i4, hj3, hj4⟩ := junk_ok i3
      simp only [hj3, pbind]
      have hi1 : i1.length < i.length := hls i i1 l hpl
      have hi3 : i3.length < i2.length := strict_tag hopl i2 i3 t htag
      have hi4 : i4.length < i.length := by omega
      cases hpm : pm i4 with
      | err => simp only [pbind]; exact hn
      | oof => exact absurd hpm (hm i4 hi4)
      | ok i5 m =>
        obtain ⟨i6, hj5, hj6⟩ := junk_ok i5
        simp only [hj5, pbind]
        have hi5 : i5.length ≤ i4.length := hmc i4 i5 m hpm
        cases htag2 : tag opr i6 with
        | err => simp only [pbind]; exact hn
        | oof => exact absurd htag2 (neveroof_tag opr i6)
        | ok i7 t2 =>
          obtain ⟨i8, hj7, hj8⟩ := junk_ok i7
          simp only [hj7, pbind]
          have hi7 : i7.length ≤ i6.length := consumes_tag opr i6 i7 t2 htag2
          have hi8 : i8.length < i.length := by omega
          cases hpr : pr i8 with
          | err => simp only [pbind]; exact hn
          | oof => exact absurd hpr (hr i8 hi8)
          | ok i9 r => simp only [pbind]; simp

theorem nooof_parse_unary_op {R T : Type} {c : R → T}
    {op : List Char} {pr : Parser R} {pn : Parser T} {i : List Char}
    (hop : op ≠ [])
    (hr : ∀ j : List Char, j.length < i.length → pr j ≠ .oof)
    (hn : pn i ≠ .oof) : parse_unary_op c op pr pn i ≠ .oof := by
  simp only [parse_unary_op]
  cases htag : tag op i with
  | err => simp only [pbind]; exact hn
  | oof => exact absurd htag (neveroof_tag op i)
  | ok i1 t =>
    obtain ⟨i2, hj, hj2⟩ := junk_ok i1
    simp only [hj, pbind]
    have hi1 : i1.length < i.length := strict_tag hop i i1 t htag
    cases hpr : pr i2 with
    | err => simp only [pbind]; exact hn
    | oof => exact absurd hpr (hr i2 (by omega))
    | ok i3 r => simp only [pbind]; simp

theorem nooof_select_varsF : ∀ fuel i, 18 * i.length + 14 < fuel →
    parse_select_varsF fuel i ≠ .oof := by
  intro fuel
  induction fuel with
  | zero => intro i hi; omega
  | succ m ih =>
    intro i hi
    simp only [parse_select_varsF]
    refine alt2_ne_oof ?_ (neveroof_pmap _ neveroof_parse_var i)
    refine nooof_parse_binary_op (neveroof_parse_var i) consumes_parse_var
      (by simp) ?_ (neveroof_fail i)
    intro j hj
    exact ih j (by omega)

theorem cascade_nooof : ∀ fuel,
    (∀ i : List Char, 18 * i.length + 17 < fuel → parse_expF fuel i ≠ .oof) ∧
    (∀ i : List Char, 18 * i.length + 16 < fuel → parse_letF fuel i ≠ .oof) ∧
    (∀ i : List Char, 18 * i.length + 15 < fuel → parse_selectF fuel i ≠ .oof) ∧
    (∀ i : List Char, 18 * i.length + 13 < fuel → parse_whereF fuel i ≠ .oof) ∧
    (∀ i : List Char, 18 * i.length + 12 < fuel → parse_unionF fuel i ≠ .oof) ∧
    (∀ i : List Char, 18 * i.length + 11 < fuel → parse_differenceF fuel i ≠ .oof) ∧
    (∀ i : List Char, 18 * i.length + 10 < fuel → parse_productF fuel i ≠ .oof) ∧
    (∀ i : List Char, 18 * i.length + 9 < fuel → parse_tableF fuel i ≠ .oof) ∧
    (∀ i : List Char, 18 * i.length + 8 < fuel → parse_rowF fuel i ≠ .oof) ∧
    (∀ i : List Char, 18 * i.length + 7 < fuel → parse_cellF fuel i ≠ .oof) ∧
    (∀ i : List Char, 18 * i.length + 6 < fuel → parse_equalsF fuel i ≠ .oof) ∧
    (∀ i : List Char, 18 * i.length + 5 < fuel → parse_orF fuel i ≠ .oof) ∧
    (∀ i : List Char, 18 * i.length + 4 < fuel → parse_andF fuel i ≠ .oof) ∧
    (∀ i : List Char, 18 * i.length + 3 < fuel → parse_notF fuel i ≠ .oof) ∧
    (∀ i : List Char, 18 * i.length + 2 < fuel → parse_atomF fuel i ≠ .oof) ∧
    (∀ i : List Char, 18 * i.length + 1 < fuel → parse_parensF fuel i ≠ .oof) := by
  intro fuel
  induction fuel with
  | zero =>
    refine ⟨?_, ?_, ?_, ?_, ?_, ?_, ?_, ?_, ?_, ?_, ?_, ?_, ?_, ?_, ?_, ?_⟩ <;>
      (intro i hi; omega)
  | succ m ih =>
    obtain ⟨ihExp, ihLet, ihSel, ihWhere, ihUnion, ihDiff, ihProd, ihTable,
      ihRow, ihCell, ihEq, ihOr, ihAnd, ihNot, ihAtom, ihParens⟩ := ih
    refine ⟨?_, ?_, ?_, ?_, ?_, ?_, ?_, ?_, ?_, ?_, ?_, ?_, ?_, ?_, ?_, ?_⟩
    · intro i hi
      obtain ⟨i1, hj, hle⟩ := junk_ok i
      simp only [parse_expF, hj, pbind]
      refine pbind_ne_oof2 (ihLet i1 (by omega)) ?_
      intro i2 e heq
      obtain ⟨i3, hj3, _⟩ := junk_ok i2
      simp [hj3, pbind]
    · intro i hi
      simp only [parse_letF]
      refine nooof_parse_ternary_op (neveroof_parse_var i) strict_parse_var
        (by simp) (fun j hj => ihLet j (by omega))
        ((cascade_consumes m).2.1) (fun j hj => ihLet j (by omega))
        (ihSel i (by omega))
    · intro i hi
      simp only [parse_selectF]
      exact nooof_parse_binary_op (nooof_select_varsF m i (by omega))
        (consumes_select_varsF m) (by simp)
        (fun j hj => ihSel j (by omega)) (ihWhere i (by omega))
    · intro i hi
      simp only [parse_whereF]
      exact nooof_parse_binary_op (ihUnion i (by omega))
        ((cascade_consumes m).2.2.2.2.1) (by simp)
        (fun j hj => ihWhere j (by omega)) (ihUnion i (by omega))
    · intro i hi
      simp only [parse_unionF]
      exact nooof_parse_binary_op (ihDiff i (by omega))
        ((cascade_consumes m).2.2.2.2.2.1) (by simp)
        (fun j hj => ihUnion j (by omega)) (ihDiff i (by omega))
    · intro i hi
      simp only [parse_differenceF]
      exact nooof_parse_binary_op (ihProd i (by omega))
        ((cascade_consumes m).2.2.2.2.2.2.1) (by simp)
        (fun j hj => ihDiff j (by omega)) (ihProd i (by omega))
    · intro i hi
      simp only [parse_productF]
      exact nooof_parse_binary_op (ihTable i (by omega))
        ((cascade_consumes m).2.2.2.2.2.2.2.1) (by simp)
        (fun j hj => ihProd j (by omega)) (ihTable i (by omega))
    · intro i hi
      simp only [parse_tableF]
      exact nooof_parse_binary_op (ihRow i (by omega))
        ((cascade_consumes m).2.2.2.2.2.2.2.2.1) (by simp)
        (fun j hj => ihTable j (by omega)) (ihRow i (by omega))
    · intro i hi
      simp only [parse_rowF]
      exact nooof_parse_binary_op (ihCell i (by omega))
        ((cascade_consumes m).2.2.2.2.2.2.2.2.2.1) (by simp)
        (fun j hj => ihRow j (by omega)) (ihCell i (by omega))
    · intro i hi
      simp only [parse_cellF]
      exact nooof_parse_binary_op (neveroof_parse_var i) consumes_parse_var
        (by simp) (fun j hj => ihCell j (by omega)) (ihEq i (by omega))
    · intro i hi
      simp only [parse_equalsF]
      exact nooof_parse_binary_op (ihOr i (by omega))
        ((cascade_consumes m).2.2.2.2.2.2.2.2.2.2.2.1) (by simp)
        (fun j hj => ihEq j (by omega)) (ihOr i (by omega))
    · intro i hi
      simp only [parse_orF]
      exact nooof_parse_binary_op (ihAnd i (by omega))
        ((cascade_consumes m).2.2.2.2.2.2.2.2.2.2.2.2.1) (by simp)
        (fun j hj => ihOr j (by omega)) (ihAnd i (by omega))
    · intro i hi
      simp only [parse_andF]
      exact nooof_parse_binary_op (ihNot i (by omega))
        ((cascade_consumes m).2.2.2.2.2.2.2.2.2.2.2.2.2.1) (by simp)
        (fun j hj => ihAnd j (by omega)) (ihNot i (by omega))
    · intro i hi
      simp only [parse_notF]
      exact nooof_parse_unary_op (by simp)
        (fun j hj => ihNot j (by omega)) (ihAtom i (by omega))
    · intro i hi
      simp only [parse_atomF]
      refine alt2_ne_oof (ihParens i (by omega)) ?_
      refine alt2_ne_oof (neveroof_pmap _ neveroof_parse_bool i) ?_
      refine alt2_ne_oof (neveroof_pmap _ neveroof_parse_int i) ?_
      exact alt2_ne_oof (neveroof_pmap _ neveroof_parse_str i)
        (neveroof_pmap _ neveroof_parse_var i)
    · intro i hi
      simp only [parse_parensF]
      cases htag : tag ['('] i with
      | err => simp [pbind]
      | oof => exact absurd htag (neveroof_tag _ i)
      | ok i1 t =>
        simp only [pbind]
        have hi1 : i1.length < i.length := strict_tag (by simp) i i1 t htag
        refine pbind_ne_oof2 (ihExp i1 (by omega)) ?_
        intro i2 e heq
        cases htag2 : tag [')'] i2 with
        | err => simp [pbind]
        | oof => exact absurd htag2 (neveroof_tag _ i2)
        | ok i3 t2 => simp [pbind]

/-- With the fuel chosen by `FUEL`, the embedded parser never runs out of
fuel: this is the termination argument for the recursive descent. -/
theorem parse_exp_no_oof (i : List Char) : parse_exp i ≠ .oof :=
  (cascade_nooof (FUEL i)).1 i (by simp [FUEL, parse_exp])

theorem identChar_of_identStart {c : Char} (h : identStart c = true) :
    identChar c = true := by
  simp only [identStart, Bool.or_eq_true] at h
  rcases h with h | h
  · simp [identChar, Char.isAlphanum, h]
  · simp [identChar, h]

theorem char_toNat_of_identChar {c : Char} (h : identChar c = true) :
    (48 ≤ c.toNat ∧ c.toNat ≤ 57) ∨ (65 ≤ c.toNat ∧ c.toNat ≤ 90) ∨
    (97 ≤ c.toNat ∧ c.toNat ≤ 122) ∨ c.toNat = 95 := by
  simp only [identChar, Char.isAlphanum, Char.isAlpha, Char.isUpper,
    Char.isLower, Char.isDigit, UInt32.le_def, Bool.or_eq_true,
    Bool.and_eq_true, decide_eq_true_eq, ge_iff_le, BitVec.le_def,
    beq_iff_eq] at h
  have h65 : (UInt32.toBitVec 65).toNat = 65 := by decide
  have h90 : (UInt32.toBitVec 90).toNat = 90 := by decide
  have h97 : (UInt32.toBitVec 97).toNat = 97 := by decide
  have h122 : (UInt32.toBitVec 122).toNat = 122 := by decide
  have h48 : (UInt32.toBitVec 48).toNat = 48 := by decide
  have h57 : (UInt32.toBitVec 57).toNat = 57 := by decide
  have hc : c.toNat = c.val.toBitVec.toNat := rfl
  rcases h with ((h1 | h1) | h1) | h1
  · omega
  · omega
  · omega
  · subst h1; simp

theorem isDigit_eq_false_of_identStart {c : Char} (h : identStart c = true) :
    c.isDigit = false := by
  cases hd : c.isDigit with
  | false => rfl
  | true =>
    exfalso
    have hrange := char_toNat_of_identChar (identChar_of_identStart h)
    have hdig : 48 ≤ c.toNat ∧ c.toNat ≤ 57 := by
      simp only [Char.isDigit, UInt32.le_def, Bool.and_eq_true,
        decide_eq_true_eq, ge_iff_le, BitVec.le_def] at hd
      have h48 : (UInt32.toBitVec 48).toNat = 48 := by decide
      have h57 : (UInt32.toBitVec 57).toNat = 57 := by decide
      have hc : c.toNat = c.val.toBitVec.toNat := rfl
      omega
    have hstart : identStart c = true := h
    simp only [identStart, Char.isAlpha, Char.isUpper, Char.isLower,
      UInt32.le_def, Bool.or_eq_true, Bool.and_eq_true, decide_eq_true_eq,
      ge_iff_le, BitVec.le_def, beq_iff_eq] at hstart
    have h65 : (UInt32.toBitVec 65).toNat = 65 := by decide
    have h90 : (UInt32.toBitVec 90).toNat = 90 := by decide
    have h97 : (UInt32.toBitVec 97).toNat = 97 := by decide
    have h122 : (UInt32.toBitVec 122).toNat = 122 := by decide
    have hc : c.toNat = c.val.toBitVec.toNat := rfl
    have h95 : ('_' : Char).toNat = 95 := by decide
    rcases hstart with (h1 | h1) | h1
    · omega
    · omega
    · rw [h1] at hdig; omega

theorem isMultispace_eq_false_of_identChar {c : Char} (h : identChar c = true) :
    isMultispaceChar c = false := by
  cases hm : isMultispaceChar c with
  | false => rfl
  | true =>
    exfalso
    have hrange := char_toNat_of_identChar h
    simp only [isMultispaceChar, Bool.or_eq_true, decide_eq_true_eq] at hm
    omega

theorem beq_eq_false_of_identChar {c d : Char} (hc : identChar c = true)
    (hd : identChar d = false) : (c == d) = false ∧ (d == c) = false := by
  have hne : c ≠ d := by
    intro heq
    rw [heq] at hc
    rw [hc] at hd
    exact absurd hd (by simp)
  exact ⟨beq_eq_false_iff_ne.mpr hne, beq_eq_false_iff_ne.mpr (Ne.symm hne)⟩

theorem dropWhile_dropWhile_imp {p q : Char → Bool}
    (himp : ∀ c, q c = true → p c = true) :
    ∀ s : List Char, (s.dropWhile q).dropWhile p = s.dropWhile p := by
  intro s
  induction s with
  | nil => simp
  | cons c cs ih =>
    cases hq : q c with
    | true =>
      rw [List.dropWhile_cons_of_pos hq, ih,
        List.dropWhile_cons_of_pos (himp c hq)]
    | false => rw [List.dropWhile_cons_of_neg (by simp [hq])]

theorem dropWhile_append_sat {p : Char → Bool} {rest : List Char}
    (hstop : match rest with | [] => True | c :: _ => p c = false) :
    ∀ cs : List Char, (∀ x ∈ cs, p x = true) →
      (cs ++ rest).dropWhile p = rest := by
  intro cs
  induction cs with
  | nil =>
    intro _
    cases rest with
    | nil => simp
    | cons c t =>
      simp only [List.nil_append]
      exact List.dropWhile_cons_of_neg (by simp_all)
  | cons x xs ih =>
    intro hall
    have hx : p x = true := hall x (by simp)
    rw [List.cons_append, List.dropWhile_cons_of_pos hx]
    exact ih (fun y hy => hall y (by simp [hy]))

theorem takeWhile_append_sat {p : Char → Bool} {rest : List Char}
    (hstop : match rest with | [] => True | c :: _ => p c = false) :
    ∀ cs : List Char, (∀ x ∈ cs, p x = true) →
      (cs ++ rest).takeWhile p = cs := by
  intro cs
  induction cs with
  | nil =>
    intro _
    cases rest with
    | nil => simp
    | cons c t =>
      simp only [List.nil_append]
      exact List.takeWhile_cons_of_neg (by simp_all)
  | cons x xs ih =>
    intro hall
    have hx : p x = true := hall x (by simp)
    rw [List.cons_append, List.takeWhile_cons_of_pos hx, ih
      (fun y hy => hall y (by simp [hy]))]

theorem take_while1_complete {cl : Char → Bool} {pre rest : List Char}
    (hpre : pre ≠ []) (hall : ∀ c ∈ pre, cl c = true)
    (hstop : match rest with | [] => True | c :: _ => cl c = false) :
    take_while1 cl (pre ++ rest) = .ok rest pre := by
  simp only [take_while1]
  rw [takeWhile_append_sat hstop pre hall, dropWhile_append_sat hstop pre hall]
  cases pre with
  | nil => exact absurd rfl hpre
  | cons a as => simp

theorem many0_ident_go :
    ∀ n s, s.length < n → ∃ vs,
      many0Go (alt2 alphanumeric1 (tag ['_'])) n s =
        .ok (s.dropWhile identChar) vs := by
  intro n
  induction n with
  | zero => intro s h; omega
  | succ m ih =>
    intro s hlen
    cases s with
    | nil =>
      refine ⟨[], ?_⟩
      simp [many0Go, alt2, alphanumeric1, take_while1, tag]
    | cons c cs =>
      cases hic : identChar c with
      | false =>
        have hic2 : c.isAlphanum = false ∧ ¬c = '_' := by
          simpa [identChar] using hic
        have hu : ('_' == c) = false :=
          beq_eq_false_iff_ne.mpr (Ne.symm hic2.2)
        refine ⟨[], ?_⟩
        have hinner : alt2 alphanumeric1 (tag ['_']) (c :: cs) = .err := by
          simp [alt2, alphanumeric1, take_while1, List.takeWhile_cons, hic2.1,
            tag, List.isPrefixOf, hu]
        simp [many0Go, hinner, List.dropWhile_cons, hic]
      | true =>
        cases ha : c.isAlphanum with
        | true =>
          have htw : (c :: cs).takeWhile Char.isAlphanum =
              c :: cs.takeWhile Char.isAlphanum := List.takeWhile_cons_of_pos ha
          have hdw : (c :: cs).dropWhile Char.isAlphanum =
              cs.dropWhile Char.isAlphanum := List.dropWhile_cons_of_pos ha
          have hinner : alt2 alphanumeric1 (tag ['_']) (c :: cs) =
              .ok (cs.dropWhile Char.isAlphanum)
                (c :: cs.takeWhile Char.isAlphanum) := by
            simp [alt2, alphanumeric1, take_while1, htw, hdw]
          have hdlen : (cs.dropWhile Char.isAlphanum).length ≤ cs.length :=
            List.Sublist.length_le (List.dropWhile_sublist _)
          obtain ⟨vs, hgo⟩ := ih (cs.dropWhile Char.isAlphanum)
            (by simp at hlen; omega)
          refine ⟨(c :: cs.takeWhile Char.isAlphanum) :: vs, ?_⟩
          have hprog : (cs.dropWhile Char.isAlphanum).length <
              (c :: cs).length := by simp; omega
          have hdd : (cs.dropWhile Char.isAlphanum).dropWhile identChar =
              cs.dropWhile identChar :=
            dropWhile_dropWhile_imp
              (fun x hx => by simp [identChar, hx]) cs
          simp only [many0Go, hinner, hprog, if_pos, hgo, pbind, hdd,
            List.dropWhile_cons_of_pos hic]
        | false =>
          have hu : c = '_' := by
            simp only [identChar, Bool.or_eq_true, ha] at hic
            exact beq_iff_eq.mp (by simpa using hic)
          have hinner : alt2 alphanumeric1 (tag ['_']) (c :: cs) =
              .ok cs ['_'] := by
            subst hu
            simp [alt2, alphanumeric1, take_while1, List.takeWhile_cons,
              tag, List.isPrefixOf]
          obtain ⟨vs, hgo⟩ := ih cs (by simp at hlen; omega)
          refine ⟨['_'] :: vs, ?_⟩
          have hprog : cs.length < (c :: cs).length := by simp
          simp only [many0Go, hinner, hprog, if_pos, hgo, pbind,
            List.dropWhile_cons_of_pos hic]

theorem parse_var_complete {c : Char} {y z : List Char}
    (hc : identStart c = true) (hcs : ∀ x ∈ y, identChar x = true)
    (hstop : headIdent z = false) :
    parse_var ((c :: y) ++ z) = .ok z (String.mk (c :: y)) := by
  have hstop2 : (y ++ z).dropWhile identChar = z := by
    refine dropWhile_append_sat ?_ y hcs
    cases z with
    | nil => trivial
    | cons r rs => simpa [headIdent] using hstop
  rw [List.cons_append]
  have hfirst : ∃ v1 rest1, alt2 alpha1 (tag ['_']) (c :: (y ++ z)) =
      .ok rest1 v1 ∧ rest1.dropWhile identChar = z := by
    simp only [identStart, Bool.or_eq_true] at hc
    cases hca : c.isAlpha with
    | true =>
      have htw : List.takeWhile Char.isAlpha (c :: (y ++ z)) =
          c :: List.takeWhile Char.isAlpha (y ++ z) :=
        List.takeWhile_cons_of_pos hca
      have hdw : List.dropWhile Char.isAlpha (c :: (y ++ z)) =
          List.dropWhile Char.isAlpha (y ++ z) :=
        List.dropWhile_cons_of_pos hca
      refine ⟨c :: List.takeWhile Char.isAlpha (y ++ z),
        List.dropWhile Char.isAlpha (y ++ z), ?_, ?_⟩
      · simp [alt2, alpha1, take_while1, htw, hdw]
      · rw [dropWhile_dropWhile_imp
          (fun x hx => by simp [identChar, Char.isAlphanum, hx]) (y ++ z)]
        exact hstop2
    | false =>
      have hu : c = '_' := by
        rcases hc with h | h
        · rw [hca] at h; exact absurd h (by simp)
        · exact beq_iff_eq.mp h
      subst hu
      refine ⟨['_'], y ++ z, ?_, hstop2⟩
      simp [alt2, alpha1, take_while1, List.takeWhile_cons, tag,
        List.isPrefixOf]
  obtain ⟨v1, rest1, hfst, hrest1⟩ := hfirst
  obtain ⟨vs, hmany⟩ := many0_ident_go (rest1.length + 1) rest1 (by omega)
  rw [hrest1] at hmany
  have hpp : ppair (alt2 alpha1 (tag ['_']))
      (many0 (alt2 alphanumeric1 (tag ['_']))) (c :: (y ++ z)) =
      .ok z (v1, vs) := by
    simp [ppair, hfst, pbind, many0, hmany]
  have hlen : (c :: (y ++ z)).length - z.length = y.length + 1 := by
    simp
    omega
  have htake : (c :: (y ++ z)).take (y.length + 1) = c :: y := by
    have h0 := List.take_left (c :: y) z
    simpa using h0
  have harith : y.length + z.length + 1 - z.length = y.length + 1 := by
    omega
  simp [parse_var, pmap, recognize, hpp, pbind, harith, htake]

theorem junk_noop {i : List Char} (h : startsJunkB i = false) :
    junk i = .ok i () := by
  have hinner : alt2 whitespace (alt2 line_comment multi_line_comment) i =
      .err := by
    have hws : whitespace i = .err := by
      cases i with
      | nil => simp [whitespace, pmap, multispace1, take_while1, pbind]
      | cons c1 t =>
        have hm : isMultispaceChar c1 = false := by
          cases t with
          | nil => simpa [startsJunkB] using h
          | cons c2 t2 =>
            simp only [startsJunkB, Bool.or_eq_true, Bool.and_eq_true] at h
            cases hmc : isMultispaceChar c1 with
            | false => rfl
            | true => simp [hmc] at h
        simp [whitespace, pmap, multispace1, take_while1,
          List.takeWhile_cons, hm, pbind]
    have hlc : line_comment i = .err := by
      cases i with
      | nil => simp [line_comment, tag, List.isPrefixOf, pbind]
      | cons c1 t =>
        cases t with
        | nil =>
          simp [line_comment, tag, List.isPrefixOf, pbind]
        | cons c2 t2 =>
          simp only [startsJunkB, Bool.or_eq_false_iff] at h
          have hfield : ('-' == c1 && '-' == c2) = false := h.1.2
          have hdd : (('-' == c1) = false) ∨ (('-' == c2) = false) := by
            cases h1 : ('-' == c1) with
            | false => exact Or.inl rfl
            | true => rw [h1, Bool.true_and] at hfield; exact Or.inr hfield
          rcases hdd with hd | hd <;>
            simp [line_comment, tag, List.isPrefixOf, hd, pbind]
    have hmlc : multi_line_comment i = .err := by
      cases i with
      | nil => simp [multi_line_comment, tag, List.isPrefixOf, pbind]
      | cons c1 t =>
        cases t with
        | nil =>
          simp [multi_line_comment, tag, List.isPrefixOf, pbind]
        | cons c2 t2 =>
          simp only [startsJunkB, Bool.or_eq_false_iff] at h
          have hfield : ('/' == c1 && '*' == c2) = false := h.2
          have hdd : (('/' == c1) = false) ∨ (('*' == c2) = false) := by
            cases h1 : ('/' == c1) with
            | false => exact Or.inl rfl
            | true => rw [h1, Bool.true_and] at hfield; exact Or.inr hfield
          rcases hdd with hd | hd <;>
            simp [multi_line_comment, tag, List.isPrefixOf, hd, pbind]
    simp [alt2, hws, hlc, hmlc]
  simp [junk, pmap, many0, many0Go, hinner, pbind]

theorem binary_op_commit {L R T : Type} {c : L → R → T} {pl : Parser L}
    {op : List Char} {pr : Parser R} {n : Parser T}
    {i i1 i2 i3 i4 i5 : List Char} {l : L} {t : List Char} {r : R}
    (h1 : pl i = .ok i1 l) (h2 : junk i1 = .ok i2 ())
    (h3 : tag op i2 = .ok i3 t) (h4 : junk i3 = .ok i4 ())
    (h5 : pr i4 = .ok i5 r) :
    parse_binary_op c pl op pr n i = .ok i5 (c l r) := by
  simp [parse_binary_op, h1, h2, h3, h4, h5, pbind]

theorem binary_op_pass {L R T : Type} {c : L → R → T} {pl : Parser L}
    {op : List Char} {pr : Parser R} {pn : Parser T} {i : List Char}
    (h1 : pl i = .err) :
    parse_binary_op c pl op pr pn i = pn i := by
  simp [parse_binary_op, h1, pbind]

theorem binary_op_fall_tag {L R T : Type} {c : L → R → T} {pl : Parser L}
    {op : List Char} {pr : Parser R} {pn : Parser T}
    {i i1 i2 : List Char} {l : L}
    (h1 : pl i = .ok i1 l) (h2 : junk i1 = .ok i2 ())
    (h3 : tag op i2 = .err) :
    parse_binary_op c pl op pr pn i = pn i := by
  simp [parse_binary_op, h1, h2, h3, pbind]

theorem binary_op_fall_right {L R T : Type} {c : L → R → T} {pl : Parser L}
    {op : List Char} {pr : Parser R} {pn : Parser T}
    {i i1 i2 i3 i4 : List Char} {l : L} {t : List Char}
    (h1 : pl i = .ok i1 l) (h2 : junk i1 = .ok i2 ())
    (h3 : tag op i2 = .ok i3 t) (h4 : junk i3 = .ok i4 ())
    (h5 : pr i4 = .err) :
    parse_binary_op c pl op pr pn i = pn i := by
  simp [parse_binary_op, h1, h2, h3, h4, h5, pbind]

theorem ternary_op_pass {L M R T : Type} {c : L → M → R → T} {pl : Parser L}
    {opl : List Char} {pm : Parser M} {opr : List Char} {pr : Parser R}
    {pn : Parser T} {i : List Char} (h1 : pl i = .err) :
    parse_ternary_op c pl opl pm opr pr pn i = pn i := by
  simp [parse_ternary_op, h1, pbind]

theorem ternary_op_fall_tag {L M R T : Type} {c : L → M → R → T}
    {pl : Parser L} {opl : List Char} {pm : Parser M} {opr : List Char}
    {pr : Parser R} {pn : Parser T} {i i1 i2 : List Char} {l : L}
    (h1 : pl i = .ok i1 l) (h2 : junk i1 = .ok i2 ())
    (h3 : tag opl i2 = .err) :
    parse_ternary_op c pl opl pm opr pr pn i = pn i := by
  simp [parse_ternary_op, h1, h2, h3, pbind]

theorem ternary_op_fall_middle {L M R T : Type} {c : L → M → R → T}
    {pl : Parser L} {opl : List Char} {pm : Parser M} {opr : List Char}
    {pr : Parser R} {pn : Parser T} {i i1 i2 i3 i4 : List Char} {l : L}
    {t : List Char}
    (h1 : pl i = .ok i1 l) (h2 : junk i1 = .ok i2 ())
    (h3 : tag opl i2 = .ok i3 t) (h4 : junk i3 = .ok i4 ())
    (h5 : pm i4 = .err) :
    parse_ternary_op c pl opl pm opr pr pn i = pn i := by
  simp [parse_ternary_op, h1, h2, h3, h4, h5, pbind]

theorem ternary_op_commit {L M R T : Type} {c : L → M → R → T}
    {pl : Parser L} {opl : List Char} {pm : Parser M} {opr : List Char}
    {pr : Parser R} {pn : Parser T}
    {i i1 i2 i3 i4 i5 i6 i7 i8 i9 : List Char} {l : L} {m : M} {r : R}
    {t t2 : List Char}
    (h1 : pl i = .ok i1 l) (h2 : junk i1 = .ok i2 ())
    (h3 : tag opl i2 = .ok i3 t) (h4 : junk i3 = .ok i4 ())
    (h5 : pm i4 = .ok i5 m) (h6 : junk i5 = .ok i6 ())
    (h7 : tag opr i6 = .ok i7 t2) (h8 : junk i7 = .ok i8 ())
    (h9 : pr i8 = .ok i9 r) :
    parse_ternary_op c pl opl pm opr pr pn i = .ok i9 (c l m r) := by
  simp [parse_ternary_op, h1, h2, h3, h4, h5, h6, h7, h8, h9, pbind]

theorem unary_op_pass {R T : Type} {c : R → T} {op : List Char}
    {pr : Parser R} {pn : Parser T} {i : List Char}
    (h1 : tag op i = .err) :
    parse_unary_op c op pr pn i = pn i := by
  simp [parse_unary_op, h1, pbind]

theorem unary_op_commit {R T : Type} {c : R → T} {op : List Char}
    {pr : Parser R} {pn : Parser T} {i i1 i2 i3 : List Char}
    {t : List Char} {r : R}
    (h1 : tag op i = .ok i1 t) (h2 : junk i1 = .ok i2 ())
    (h3 : pr i2 = .ok i3 r) :
    parse_unary_op c op pr pn i = .ok i3 (c r) := by
  simp [parse_unary_op, h1, h2, h3, pbind]

/-- The empty `tag` (used as `Let`'s right separator) matches any input
without consuming anything, as nom's `tag("")` does. -/
theorem tag_nil (i : List Char) : tag [] i = .ok i [] := by
  simp [tag, List.isPrefixOf]

theorem tag_cons_ne {t : List Char} {d : Char} {i : List Char} {c : Char}
    (h : (d == c) = false) : tag (d :: t) (c :: i) = .err := by
  simp [tag, List.isPrefixOf, h]

theorem tag_nil_input {t : List Char} {d : Char} :
    tag (d :: t) [] = .err := by
  simp [tag, List.isPrefixOf]

set_option maxRecDepth 100000

/-- C1 counterexample: on the input `-42hello` the entry point `parse_exp`
succeeds and returns the non-junk text `hello` as leftover input, instead of
reporting a failure, refuting the claim that `parse_exp` fails whenever
non-junk input remains after the parsed expression. -/
theorem c1_full_consumption_counterexample :
    parse_exp ("-42hello".toList) = .ok ("hello".toList) (Exp.Int (-42)) ∧
    ("hello".toList) ≠ [] ∧ startsJunkB ("hello".toList) = false := by
  refine ⟨by decide, by decide, by decide⟩

/-- C1 (amended): the entry point `parse_exp` skips leading junk, parses one
`Let`-level expression, skips trailing junk, and then returns the expression
together with whatever input remains — it does not itself require the input
to be fully consumed.  The leftover it returns is a suffix of the input that
starts with no further junk (so full-consumption checking is the caller's
job). -/
theorem c1_entry_point_returns_leftover :
    ∀ s r : List Char, ∀ e : Exp, parse_exp s = .ok r e →
      junk r = .ok r () ∧ r.length ≤ s.length := by
  intro s r e h
  simp only [parse_exp] at h
  obtain ⟨g, hg⟩ : ∃ g, FUEL s = g + 1 := ⟨18 * s.length + 17, by simp [FUEL]⟩
  rw [hg] at h
  simp only [parse_expF] at h
  obtain ⟨i1, u1, h1, h2⟩ := pbind_ok h
  obtain ⟨i2, e2, h3, h4⟩ := pbind_ok h2
  obtain ⟨i3, u2, h5, h6⟩ := pbind_ok h4
  cases h6
  refine ⟨junk_idem h5, ?_⟩
  exact le_trans (consumes_junk i2 r u2 h5)
    (le_trans ((cascade_consumes g).2.1 i1 i2 e h3) (consumes_junk s i1 u1 h1))

/-- C1 witness: instantiating the amended claim on the concrete input
`-42hello`, whose parse succeeds with leftover `hello`. -/
theorem c1_entry_point_returns_leftover_witness :
    junk ("hello".toList) = .ok ("hello".toList) () ∧
    ("hello".toList).length ≤ ("-42hello".toList).length :=
  c1_entry_point_returns_leftover ("-42hello".toList) ("hello".toList)
    (Exp.Int (-42)) (by decide)

/-- C2 counterexample: on the input `x == ` the left operand and the `==`
operator token both match but the right-hand operand fails; the rule does
not fail — it falls back to the next-tighter rule and returns just the left
operand `x`, leaving ` == ` unconsumed.  This refutes the claim that the
whole rule fails in this situation. -/
theorem c2_commit_counterexample :
    parse_equals ("x == ".toList) = .ok (" == ".toList) (Exp.Var "x") := by
  decide

/-- C2 (amended): when the left operand, the junk, and the operator token of
the `Equals` layer all match but the right-hand recursive parse then fails,
the committed alternative fails as a whole (no retry with a different split
point), and `alt` then falls back to the next-tighter rule `parse_or` on the
original input — so the layer returns whatever `parse_or` returns there
rather than failing outright. -/
theorem c2_equals_falls_back_to_or :
    ∀ (fuel : Nat) (i i1 i2 i3 i4 : List Char) (l : Exp) (t : List Char),
      parse_orF fuel i = .ok i1 l → junk i1 = .ok i2 () →
      tag ['=', '='] i2 = .ok i3 t → junk i3 = .ok i4 () →
      parse_equalsF fuel i4 = .err →
      parse_equalsF (fuel + 1) i = parse_orF fuel i := by
  intro fuel i i1 i2 i3 i4 l t h1 h2 h3 h4 h5
  simp only [parse_equalsF]
  exact binary_op_fall_right h1 h2 h3 h4 h5

/-- C2 witness: the fallback equation instantiated on the concrete input
`x == `, with every hypothesis discharged by evaluation. -/
theorem c2_equals_falls_back_to_or_witness :
    parse_equalsF 108 ("x == ".toList) = parse_orF 107 ("x == ".toList) :=
  c2_equals_falls_back_to_or 107 ("x == ".toList) (" == ".toList)
    ("== ".toList) (" ".toList) [] (Exp.Var "x") ['=', '=']
    (by decide) (by decide) (by decide) (by decide) (by decide)

/-- C5 counterexample: a line comment whose body is empty (`--` directly
followed by a newline, or `--` at end of input) makes `line_comment` fail,
refuting the claim that the rule succeeds for empty comment bodies. -/
theorem c5_empty_line_comment_counterexample :
    line_comment ("--\nx".toList) = .err ∧
    line_comment ("--".toList) = .err := by
  refine ⟨by decide, by decide⟩

/-- C5 (amended): `line_comment` consumes `--` together with one or more
following characters up to but excluding the next newline (or to end of
input when no newline follows); the comment body must be non-empty, because
nom's `is_not` fails on an empty match. -/
theorem c5_line_comment_body :
    ∀ body rest : List Char, body ≠ [] →
      (∀ c ∈ body, (c == nlChar) = false) →
      line_comment (['-', '-'] ++ body ++ nlChar :: rest) =
        .ok (nlChar :: rest) () ∧
      line_comment (['-', '-'] ++ body) = .ok [] () := by
  intro body rest hne hall
  have hsat : ∀ c ∈ body, (fun c => c != nlChar) c = true := by
    intro c hc
    simp [bne, hall c hc]
  constructor
  · have htag : tag ['-', '-'] ('-' :: '-' :: (body ++ nlChar :: rest)) =
        .ok (body ++ nlChar :: rest) ['-', '-'] := by
      simp [tag, List.isPrefixOf]
    have hbody : take_while1 (fun c => c != nlChar) (body ++ nlChar :: rest) =
        .ok (nlChar :: rest) body :=
      take_while1_complete hne hsat (by simp [bne])
    simp [line_comment, htag, is_not, hbody, pbind]
  · have htag : tag ['-', '-'] ('-' :: '-' :: body) =
        .ok body ['-', '-'] := by
      simp [tag, List.isPrefixOf]
    have hbody : take_while1 (fun c => c != nlChar) (body ++ []) =
        .ok [] body := take_while1_complete hne hsat trivial
    simp only [List.append_nil] at hbody
    simp [line_comment, htag, is_not, hbody, pbind]

/-- C5 witness: the amended line-comment rule on the concrete comment
`-- hi` followed by a newline and the text `x`. -/
theorem c5_line_comment_body_witness :
    line_comment (['-', '-'] ++ (" hi".toList) ++ nlChar :: ("x".toList)) =
      .ok (nlChar :: ("x".toList)) () ∧
    line_comment (['-', '-'] ++ (" hi".toList)) = .ok [] () := by
  have h := c5_line_comment_body (" hi".toList) ("x".toList)
    (by decide) (by decide)
  exact h

/-- C6 counterexample: the input `'/*'` contains a block-comment opener
`/*` with no closing `*/` anywhere after it, yet the parse succeeds (the
opener sits inside a string literal), refuting the universally quantified
claim that every such input is a parse failure. -/
theorem c6_unterminated_counterexample :
    hasSubstr ['/', '*'] ("'/*'".toList) = true ∧
    hasSubstr ['*', '/'] ("'/*'".toList) = false ∧
    parse_exp ("'/*'".toList) = .ok [] (Exp.Str "/*") := by
  refine ⟨by decide, by decide, by decide⟩

/-- When the token never occurs in the input, `take_until_go` finds no
split. -/
theorem take_until_go_none {t : List Char} :
    ∀ s : List Char, hasSubstr t s = false → take_until_go t s = none := by
  intro s
  induction s with
  | nil =>
    intro h
    simp only [hasSubstr] at h
    simp [take_until_go, h]
  | cons c cs ih =>
    intro h
    simp only [hasSubstr, Bool.or_eq_false_iff] at h
    simp [take_until_go, h.1, ih h.2]

/-- C6 (amended): a block comment opener `/*` with no closing `*/` after it
makes `multi_line_comment` fail at that position (a recoverable failure that
the junk skipper does not absorb), and in particular the whole input
`/* unterminated` is a parse failure of `parse_exp`; however an unclosed
`/*` appearing inside a string literal (or in leftover input) does not force
the parse to fail. -/
theorem c6_unterminated_block_comment :
    (∀ s : List Char, hasSubstr ['*', '/'] s = false →
      multi_line_comment ('/' :: '*' :: s) = .err) ∧
    parse_exp ("/* unterminated".toList) = .err := by
  constructor
  · intro s h
    have htag : tag ['/', '*'] ('/' :: '*' :: s) = .ok s ['/', '*'] := by
      simp [tag, List.isPrefixOf]
    have huntil : take_until ['*', '/'] s = .err := by
      simp [take_until, take_until_go_none s h]
    simp [multi_line_comment, htag, huntil, pbind]
  · decide

/-- C6 witness: the unterminated-comment failure instantiated on the
concrete comment body ` unterminated`. -/
theorem c6_unterminated_block_comment_witness :
    multi_line_comment ('/' :: '*' :: (" unterminated".toList)) = .err :=
  c6_unterminated_block_comment.1 (" unterminated".toList) (by decide)

/-- C7 counterexample: `!true` is a valid program, but inserting the run
`--` + newline (a line comment with empty body, legal incidental text per
the specification's grammar) between the tokens `!` and `true` turns the
parse into a failure, refuting the claim that inserting any run of
whitespace, line comments and block comments between two tokens never
changes the parsed AST. -/
theorem c7_junk_insertion_counterexample :
    parse_exp ("!true".toList) = .ok [] (Exp.Not (Exp.Bool true)) ∧
    parse_exp ("!--\ntrue".toList) = .err := by
  refine ⟨by decide, by decide⟩

/-- C7 (amended): inserting whitespace, line comments with non-empty
bodies, and closed block comments between tokens of a valid program does
not change the parsed AST, while an empty-bodied line comment can break the
parse.  Witnessed by the two-run equality on the canonical example: the
junk-stripped rendering and the heavily commented rendering of the Staff
program parse to the identical AST with no leftover input. -/
theorem c7_staff_two_run_equality :
    parse_exp denseStaff = parse_exp commentedStaff ∧
    parse_exp commentedStaff = .ok [] staffProgram := by
  refine ⟨by decide, by decide⟩

/-- Digits are never the minus sign. -/
theorem digit_ne_minus {c : Char} (h : c.isDigit = true) :
    ('-' == c) = false := by
  have hd : 48 ≤ c.toNat ∧ c.toNat ≤ 57 := by
    simp only [Char.isDigit, UInt32.le_def, Bool.and_eq_true,
      decide_eq_true_eq, ge_iff_le, BitVec.le_def] at h
    have h48 : (UInt32.toBitVec 48).toNat = 48 := by decide
    have h57 : (UInt32.toBitVec 57).toNat = 57 := by decide
    have hc : c.toNat = c.val.toBitVec.toNat := rfl
    omega
  refine beq_eq_false_iff_ne.mpr ?_
  intro heq
  rw [← heq] at hd
  simp at hd

/-- C4: the atom rule tries parenthesized expression, boolean, integer,
string, then identifier in that fixed order, and the boolean rule matches
`true`/`false` as a literal prefix without requiring a non-identifier
character to follow; hence an identifier beginning with exactly `true` or
`false` followed by more identifier characters is parsed as the boolean
literal, with the remaining identifier characters left unconsumed. -/
theorem c4_bool_prefix_wins_over_identifier :
    ∀ (fuel : Nat) (c : Char) (rest : List Char), identChar c = true →
      parse_atomF (fuel + 2) ('t' :: 'r' :: 'u' :: 'e' :: c :: rest) =
        .ok (c :: rest) (Exp.Bool true) ∧
      parse_atomF (fuel + 2) ('f' :: 'a' :: 'l' :: 's' :: 'e' :: c :: rest) =
        .ok (c :: rest) (Exp.Bool false) := by
  intro fuel c rest hc
  constructor
  · have hpar : parse_parensF (fuel + 1)
        ('t' :: 'r' :: 'u' :: 'e' :: c :: rest) = .err := by
      simp only [parse_parensF]
      rw [tag_cons_ne (by decide)]
      simp [pbind]
    have hbool : parse_bool ('t' :: 'r' :: 'u' :: 'e' :: c :: rest) =
        .ok (c :: rest) true := by
      simp [parse_bool, alt2, pmap, tag, List.isPrefixOf, pbind]
    simp [parse_atomF, alt2, hpar, pmap, hbool, pbind]
  · have hpar : parse_parensF (fuel + 1)
        ('f' :: 'a' :: 'l' :: 's' :: 'e' :: c :: rest) = .err := by
      simp only [parse_parensF]
      rw [tag_cons_ne (by decide)]
      simp [pbind]
    have hbool : parse_bool ('f' :: 'a' :: 'l' :: 's' :: 'e' :: c :: rest) =
        .ok (c :: rest) false := by
      have htrue : tag ['t', 'r', 'u', 'e']
          ('f' :: 'a' :: 'l' :: 's' :: 'e' :: c :: rest) = .err :=
        tag_cons_ne (by decide)
      simp [parse_bool, alt2, pmap, htrue, tag, List.isPrefixOf, pbind]
    simp [parse_atomF, alt2, hpar, pmap, hbool, pbind]

/-- C4 witness: on the concrete input `truefoo` the atom rule (with any
sufficient fuel, here 2) returns the boolean literal and leaves `foo`
unconsumed. -/
theorem c4_bool_prefix_wins_over_identifier_witness :
    parse_atomF 2 ("truefoo".toList) = .ok ("foo".toList) (Exp.Bool true) ∧
    parse_atomF 2 ("falsefoo".toList) = .ok ("foo".toList) (Exp.Bool false) :=
  c4_bool_prefix_wins_over_identifier 0 'f' ("oo".toList) (by decide)

/-- Reduction of Rust's `i64` parse on an all-digit span. -/
theorem to_int_digits {ds : List Char} (hne : ds ≠ [])
    (hd : ∀ c ∈ ds, c.isDigit = true) :
    to_int ds = (if (digitsToNat ds : Int) ≤ i64Max
      then some ((digitsToNat ds : Int)) else none) := by
  cases ds with
  | nil => exact absurd rfl hne
  | cons d ds' =>
    have hdne : ¬('-' :: [] ).isPrefixOf (d :: ds') = true → True := fun _ => trivial
    have hdm : d ≠ '-' := by
      have h := digit_ne_minus (hd d (by simp))
      intro heq
      rw [heq] at h
      simp at h
    unfold to_int
    split
    · rename_i ds2 heq
      injection heq with h1 h2
      exact absurd h1 hdm
    · rfl

/-- Reduction of Rust's `i64` parse on a minus sign plus digit span. -/
theorem to_int_neg (ds : List Char) :
    to_int ('-' :: ds) = (if i64Min ≤ -(digitsToNat ds : Int)
      then some (-(digitsToNat ds : Int)) else none) := by
  rfl

/-- C8: the integer-literal rule accepts an optional leading minus followed
by one or more decimal digits, consumes exactly that sign-and-digit run and
leaves the rest of the input, and yields the digits' value as a 64-bit
signed integer; a value outside the 64-bit signed range is an ordinary
recoverable parse failure (the embedding is a total function, so there is
no panic).  Concretely, `-42hello` yields -42 with `hello` remaining, the
two 64-bit boundary literals parse, and the out-of-range literal
9223372036854775808 fails. -/
theorem c8_parse_int_range :
    (∀ ds rest : List Char, ds ≠ [] → (∀ c ∈ ds, c.isDigit = true) →
      headDigit rest = false →
      parse_int (ds ++ rest) =
        (if (digitsToNat ds : Int) ≤ i64Max
         then .ok rest ((digitsToNat ds : Int)) else .err)) ∧
    (∀ ds rest : List Char, ds ≠ [] → (∀ c ∈ ds, c.isDigit = true) →
      headDigit rest = false →
      parse_int ('-' :: (ds ++ rest)) =
        (if i64Min ≤ -(digitsToNat ds : Int)
         then .ok rest (-(digitsToNat ds : Int)) else .err)) ∧
    parse_int ("-42hello".toList) = .ok ("hello".toList) (-42) ∧
    parse_int ("9223372036854775808".toList) = .err ∧
    parse_int ("-9223372036854775808".toList) = .ok [] (-(2 ^ 63)) ∧
    parse_int ("9223372036854775807".toList) = .ok [] (2 ^ 63 - 1) := by
  have main : ∀ ds rest : List Char, ds ≠ [] →
      (∀ c ∈ ds, c.isDigit = true) → headDigit rest = false →
      (parse_int (ds ++ rest) =
        (if (digitsToNat ds : Int) ≤ i64Max
         then .ok rest ((digitsToNat ds : Int)) else .err)) ∧
      (parse_int ('-' :: (ds ++ rest)) =
        (if i64Min ≤ -(digitsToNat ds : Int)
         then .ok rest (-(digitsToNat ds : Int)) else .err)) := by
    intro ds rest hne hd hrest
    have hdig : digit1 (ds ++ rest) = .ok rest ds := by
      simp only [digit1]
      exact take_while1_complete hne hd
        (by cases rest with
          | nil => trivial
          | cons r rs => simpa [headDigit] using hrest)
    constructor
    · have hopt : opt (tag ['-']) (ds ++ rest) = .ok (ds ++ rest) none := by
        cases ds with
        | nil => exact absurd rfl hne
        | cons d ds' =>
          rw [List.cons_append]
          have htag : tag ['-'] (d :: (ds' ++ rest)) = .err :=
            tag_cons_ne (digit_ne_minus (hd d (by simp)))
          simp [opt, htag]
      have hpp : ppair (opt (tag ['-'])) digit1 (ds ++ rest) =
          .ok rest (none, ds) := by
        simp [ppair, hopt, pbind, hdig]
      have harith : ds.length + rest.length - rest.length = ds.length := by
        omega
      have htake : (ds ++ rest).take (ds.length) = ds :=
        List.take_left ds rest
      have hrec : recognize (ppair (opt (tag ['-'])) digit1) (ds ++ rest) =
          .ok rest ds := by
        simp [recognize, hpp, pbind, harith, htake]
      rw [show parse_int (ds ++ rest) =
        pbind (recognize (ppair (opt (tag ['-'])) digit1) (ds ++ rest))
          (fun rest s => match to_int s with
            | some v => .ok rest v
            | none => .err) from rfl, hrec]
      simp only [pbind, to_int_digits hne hd]
      by_cases hle : (digitsToNat ds : Int) ≤ i64Max <;> simp [hle]
    · have htag : tag ['-'] ('-' :: (ds ++ rest)) =
          .ok (ds ++ rest) ['-'] := by
        simp [tag, List.isPrefixOf]
      have hopt : opt (tag ['-']) ('-' :: (ds ++ rest)) =
          .ok (ds ++ rest) (some ['-']) := by
        simp [opt, htag]
      have hpp : ppair (opt (tag ['-'])) digit1 ('-' :: (ds ++ rest)) =
          .ok rest (some ['-'], ds) := by
        simp [ppair, hopt, pbind, hdig]
      have harith : ds.length + rest.length + 1 - rest.length =
          ds.length + 1 := by
        omega
      have htake : ('-' :: (ds ++ rest)).take (ds.length + 1) = '-' :: ds := by
        have h0 := List.take_left ('-' :: ds) rest
        simpa using h0
      have hrec : recognize (ppair (opt (tag ['-'])) digit1)
          ('-' :: (ds ++ rest)) = .ok rest ('-' :: ds) := by
        simp [recognize, hpp, pbind, harith, htake]
      rw [show parse_int ('-' :: (ds ++ rest)) =
        pbind (recognize (ppair (opt (tag ['-'])) digit1) ('-' :: (ds ++ rest)))
          (fun rest s => match to_int s with
            | some v => .ok rest v
            | none => .err) from rfl, hrec]
      simp only [pbind, to_int_neg]
      by_cases hle : i64Min ≤ -(digitsToNat ds : Int) <;> simp [hle]
  refine ⟨fun ds rest h1 h2 h3 => (main ds rest h1 h2 h3).1,
    fun ds rest h1 h2 h3 => (main ds rest h1 h2 h3).2,
    by decide, by decide, by decide, by decide⟩

/-- C8 witness: the negative-literal clause instantiated on `-42hello`,
whose if-condition reduces to true, giving -42 with `hello` left over. -/
theorem c8_parse_int_range_witness :
    parse_int ('-' :: (("42".toList) ++ ("hello".toList))) =
      .ok ("hello".toList) (-42) := by
  have h := c8_parse_int_range.2.1 ("42".toList) ("hello".toList)
    (by decide) (by decide) (by decide)
  simpa using h

/-- C10: on every finite input, the entry point deterministically returns
either a parsed expression together with the remaining input or a parse
failure; the fueled descent never exhausts its fuel (the embedding's
rendering of termination), and being a total Lean function it cannot crash
and yields the same result on every run. -/
theorem c10_parse_exp_total :
    ∀ s : List Char, (∃ rest e, parse_exp s = .ok rest e) ∨
      parse_exp s = .err := by
  intro s
  cases h : parse_exp s with
  | ok rest e => exact Or.inl ⟨rest, e, rfl⟩
  | err => exact Or.inr rfl
  | oof => exact absurd h (parse_exp_no_oof s)

theorem tag_of_headIs {d : Char} {u rest : List Char}
    (h : headIs rest d = false) : tag (d :: u) rest = .err := by
  cases rest with
  | nil => exact tag_nil_input
  | cons r0 rs => exact tag_cons_ne (by simpa [headIs] using h)

theorem startsJunk_ident {b : Char} (hb : identStart b = true) :
    ∀ x : List Char, startsJunkB (b :: x) = false := by
  intro x
  have hm : isMultispaceChar b = false :=
    isMultispace_eq_false_of_identChar (identChar_of_identStart hb)
  have hd : ('-' == b) = false :=
    (beq_eq_false_of_identChar (identChar_of_identStart hb) (by decide)).2
  have hs : ('/' == b) = false :=
    (beq_eq_false_of_identChar (identChar_of_identStart hb) (by decide)).2
  cases x with
  | nil => simpa [startsJunkB] using hm
  | cons x0 xs => simp [startsJunkB, hm, hd, hs]

theorem parse_var_head_err {h0 : Char} {x : List Char}
    (ha : h0.isAlpha = false) (hu : ('_' == h0) = false) :
    parse_var (h0 :: x) = .err := by
  have hfirst : alt2 alpha1 (tag ['_']) (h0 :: x) = .err := by
    have h1 : alpha1 (h0 :: x) = .err := by
      simp [alpha1, take_while1, List.takeWhile_cons, ha]
    have h2 : tag ['_'] (h0 :: x) = .err := tag_cons_ne hu
    simp [alt2, h1, h2]
  simp [parse_var, pmap, recognize, ppair, hfirst, pbind]

theorem junk_nil : junk [] = .ok [] () := junk_noop (by rfl)

theorem binary_pass_nil {L : Type} {c : L → L → L} {pl : Parser L}
    {d : Char} {ts : List Char} {pr : Parser L}
    {i : List Char} {v : L}
    (h : pl i = .ok [] v) :
    parse_binary_op c pl (d :: ts) pr pl i = pl i :=
  binary_op_fall_tag h junk_nil tag_nil_input

theorem atomF_var {a : Char} {z : List Char}
    (ha : identStart a = true) (h1 : headIdent z = false)
    (hr : headIs z 'r' = false) (hra : headIs z 'a' = false) :
    ∀ f, parse_atomF (f + 2) (a :: z) = .ok z (Exp.Var (String.mk [a])) := by
  intro f
  have hvar : parse_var (a :: z) = .ok z (String.mk [a]) := by
    have h := parse_var_complete (c := a) (y := []) (z := z) ha
      (by simp) h1
    simpa using h
  have hca := identChar_of_identStart ha
  have hpar : parse_parensF (f + 1) (a :: z) = .err := by
    simp only [parse_parensF]
    rw [tag_cons_ne (beq_eq_false_of_identChar hca (by decide)).2]
    simp [pbind]
  have hbool : parse_bool (a :: z) = .err := by
    have h1b : tag ['t', 'r', 'u', 'e'] (a :: z) = .err :=
      tag_of_headIs (d := 'r') (u := ['u', 'e']) hr |>.symm ▸ (by
        cases z with
        | nil => simp [tag, List.isPrefixOf]
        | cons r0 rs =>
          have : ('r' == r0) = false := by simpa [headIs] using hr
          simp [tag, List.isPrefixOf, this])
    have h2b : tag ['f', 'a', 'l', 's', 'e'] (a :: z) = .err := by
      cases z with
      | nil => simp [tag, List.isPrefixOf]
      | cons r0 rs =>
        have : ('a' == r0) = false := by simpa [headIs] using hra
        simp [tag, List.isPrefixOf, this]
    simp [parse_bool, alt2, pmap, h1b, h2b, pbind]
  have hint : parse_int (a :: z) = .err := by
    have htagm : tag ['-'] (a :: z) = .err :=
      tag_cons_ne (beq_eq_false_of_identChar hca (by decide)).2
    have hdig : digit1 (a :: z) = .err := by
      simp [digit1, take_while1, List.takeWhile_cons,
        isDigit_eq_false_of_identStart ha]
    simp [parse_int, recognize, ppair, opt, htagm, hdig, pbind]
  have hstr : parse_str (a :: z) = .err := by
    rw [show parse_str (a :: z) =
      pbind (tag [quoteChar] (a :: z)) (fun i1 _ =>
        pbind (many0 (is_not quoteChar) i1) (fun i2 parts =>
          pbind (tag [quoteChar] i2)
            (fun i3 _ => .ok i3 (String.mk parts.flatten)))) from rfl]
    rw [tag_cons_ne (beq_eq_false_of_identChar hca (by decide)).2]
    simp [pbind]
  simp [parse_atomF, alt2, hpar, pmap, hbool, hint, hstr, hvar, pbind]

theorem notF_var {a : Char} {z : List Char}
    (ha : identStart a = true) (h1 : headIdent z = false)
    (hr : headIs z 'r' = false) (hra : headIs z 'a' = false) :
    ∀ f, parse_notF (f + 3) (a :: z) = .ok z (Exp.Var (String.mk [a])) := by
  intro f
  have hca := identChar_of_identStart ha
  have htag : tag ['!'] (a :: z) = .err :=
    tag_cons_ne (beq_eq_false_of_identChar hca (by decide)).2
  rw [parse_notF]
  rw [unary_op_pass htag]
  exact atomF_var ha h1 hr hra f

theorem andF_var {a : Char} {z : List Char}
    (ha : identStart a = true) (h1 : headIdent z = false)
    (hr : headIs z 'r' = false) (hra : headIs z 'a' = false)
    (hj : startsJunkB z = false) (hAmp : headIs z '&' = false) :
    ∀ f, parse_andF (f + 4) (a :: z) = .ok z (Exp.Var (String.mk [a])) := by
  intro f
  have hnot := notF_var ha h1 hr hra f
  rw [parse_andF]
  rw [binary_op_fall_tag hnot (junk_noop hj) (tag_of_headIs hAmp)]
  exact hnot

theorem orF_var {a : Char} {z : List Char}
    (ha : identStart a = true) (h1 : headIdent z = false)
    (hr : headIs z 'r' = false) (hra : headIs z 'a' = false)
    (hj : startsJunkB z = false) (hAmp : headIs z '&' = false)
    (hBar : headIs z '|' = false) :
    ∀ f, parse_orF (f + 5) (a :: z) = .ok z (Exp.Var (String.mk [a])) := by
  intro f
  have hand := andF_var ha h1 hr hra hj hAmp f
  rw [parse_orF]
  rw [binary_op_fall_tag hand (junk_noop hj) (tag_of_headIs hBar)]
  exact hand

theorem equalsF_var {a : Char} {z : List Char}
    (ha : identStart a = true) (h1 : headIdent z = false)
    (hr : headIs z 'r' = false) (hra : headIs z 'a' = false)
    (hj : startsJunkB z = false) (hAmp : headIs z '&' = false)
    (hBar : headIs z '|' = false) (hEq : headIs z '=' = false) :
    ∀ f, parse_equalsF (f + 6) (a :: z) =
      .ok z (Exp.Var (String.mk [a])) := by
  intro f
  have hor := orF_var ha h1 hr hra hj hAmp hBar f
  rw [parse_equalsF]
  rw [binary_op_fall_tag hor (junk_noop hj) (tag_of_headIs hEq)]
  exact hor

theorem cellF_var {a : Char} {z : List Char}
    (ha : identStart a = true) (h1 : headIdent z = false)
    (hr : headIs z 'r' = false) (hra : headIs z 'a' = false)
    (hj : startsJunkB z = false) (hAmp : headIs z '&' = false)
    (hBar : headIs z '|' = false) (hEq : headIs z '=' = false)
    (hColon : headIs z ':' = false) :
    ∀ f, parse_cellF (f + 7) (a :: z) =
      .ok z (Exp.Var (String.mk [a])) := by
  intro f
  have hvar : parse_var (a :: z) = .ok z (String.mk [a]) := by
    have h := parse_var_complete (c := a) (y := []) (z := z) ha
      (by simp) h1
    simpa using h
  rw [parse_cellF]
  rw [binary_op_fall_tag hvar (junk_noop hj) (tag_of_headIs hColon)]
  exact equalsF_var ha h1 hr hra hj hAmp hBar hEq f

theorem rowF_var {a : Char} {z : List Char}
    (ha : identStart a = true) (h1 : headIdent z = false)
    (hr : headIs z 'r' = false) (hra : headIs z 'a' = false)
    (hj : startsJunkB z = false) (hAmp : headIs z '&' = false)
    (hBar : headIs z '|' = false) (hEq : headIs z '=' = false)
    (hColon : headIs z ':' = false) (hComma : headIs z ',' = false) :
    ∀ f, parse_rowF (f + 8) (a :: z) =
      .ok z (Exp.Var (String.mk [a])) := by
  intro f
  have hcell := cellF_var ha h1 hr hra hj hAmp hBar hEq hColon f
  rw [parse_rowF]
  rw [binary_op_fall_tag hcell (junk_noop hj) (tag_of_headIs hComma)]
  exact hcell

theorem tableF_var {a : Char} {z : List Char}
    (ha : identStart a = true) (h1 : headIdent z = false)
    (hr : headIs z 'r' = false) (hra : headIs z 'a' = false)
    (hj : startsJunkB z = false) (hAmp : headIs z '&' = false)
    (hBar : headIs z '|' = false) (hEq : headIs z '=' = false)
    (hColon : headIs z ':' = false) (hComma : headIs z ',' = false)
    (hSemi : headIs z ';' = false) :
    ∀ f, parse_tableF (f + 9) (a :: z) =
      .ok z (Exp.Var (String.mk [a])) := by
  intro f
  have hrow := rowF_var ha h1 hr hra hj hAmp hBar hEq hColon hComma f
  rw [parse_tableF]
  rw [binary_op_fall_tag hrow (junk_noop hj) (tag_of_headIs hSemi)]
  exact hrow

theorem productF_var {a : Char} {z : List Char}
    (ha : identStart a = true) (h1 : headIdent z = false)
    (hr : headIs z 'r' = false) (hra : headIs z 'a' = false)
    (hj : startsJunkB z = false) (hAmp : headIs z '&' = false)
    (hBar : headIs z '|' = false) (hEq : headIs z '=' = false)
    (hColon : headIs z ':' = false) (hComma : headIs z ',' = false)
    (hSemi : headIs z ';' = false) (hStar : headIs z '*' = false) :
    ∀ f, parse_productF (f + 10) (a :: z) =
      .ok z (Exp.Var (String.mk [a])) := by
  intro f
  have htab := tableF_var ha h1 hr hra hj hAmp hBar hEq hColon hComma
    hSemi f
  rw [parse_productF]
  rw [binary_op_fall_tag htab (junk_noop hj) (tag_of_headIs hStar)]
  exact htab

theorem differenceF_var {a : Char} {z : List Char}
    (ha : identStart a = true) (h1 : headIdent z = false)
    (hr : headIs z 'r' = false) (hra : headIs z 'a' = false)
    (hj : startsJunkB z = false) (hAmp : headIs z '&' = false)
    (hBar : headIs z '|' = false) (hEq : headIs z '=' = false)
    (hColon : headIs z ':' = false) (hComma : headIs z ',' = false)
    (hSemi : headIs z ';' = false) (hStar : headIs z '*' = false)
    (hDash : headIs z '-' = false) :
    ∀ f, parse_differenceF (f + 11) (a :: z) =
      .ok z (Exp.Var (String.mk [a])) := by
  intro f
  have hprod := productF_var ha h1 hr hra hj hAmp hBar hEq hColon hComma
    hSemi hStar f
  rw [parse_differenceF]
  rw [binary_op_fall_tag hprod (junk_noop hj) (tag_of_headIs hDash)]
  exact hprod

theorem unionF_var {a : Char} {z : List Char}
    (ha : identStart a = true) (h1 : headIdent z = false)
    (hr : headIs z 'r' = false) (hra : headIs z 'a' = false)
    (hj : startsJunkB z = false) (hAmp : headIs z '&' = false)
    (hBar : headIs z '|' = false) (hEq : headIs z '=' = false)
    (hColon : headIs z ':' = false) (hComma : headIs z ',' = false)
    (hSemi : headIs z ';' = false) (hStar : headIs z '*' = false)
    (hDash : headIs z '-' = false) (hPlus : headIs z '+' = false) :
    ∀ f, parse_unionF (f + 12) (a :: z) =
      .ok z (Exp.Var (String.mk [a])) := by
  intro f
  have hdiff := differenceF_var ha h1 hr hra hj hAmp hBar hEq hColon hComma
    hSemi hStar hDash f
  rw [parse_unionF]
  rw [binary_op_fall_tag hdiff (junk_noop hj) (tag_of_headIs hPlus)]
  exact hdiff

theorem whereF_var {a : Char} {z : List Char}
    (ha : identStart a = true) (h1 : headIdent z = false)
    (hr : headIs z 'r' = false) (hra : headIs z 'a' = false)
    (hj : startsJunkB z = false) (hAmp : headIs z '&' = false)
    (hBar : headIs z '|' = false) (hEq : headIs z '=' = false)
    (hColon : headIs z ':' = false) (hComma : headIs z ',' = false)
    (hSemi : headIs z ';' = false) (hStar : headIs z '*' = false)
    (hDash : headIs z '-' = false) (hPlus : headIs z '+' = false)
    (hQ : headIs z '?' = false) :
    ∀ f, parse_whereF (f + 13) (a :: z) =
      .ok z (Exp.Var (String.mk [a])) := by
  intro f
  have huni := unionF_var ha h1 hr hra hj hAmp hBar hEq hColon hComma
    hSemi hStar hDash hPlus f
  rw [parse_whereF]
  rw [binary_op_fall_tag huni (junk_noop hj) (tag_of_headIs hQ)]
  exact huni

theorem headIdent_cons (c : Char) (x : List Char) :
    headIdent (c :: x) = identChar c := rfl

theorem headIs_cons (c d : Char) (x : List Char) :
    headIs (c :: x) d = (d == c) := rfl

theorem startsJunk_of_facts {ch : Char} (h1 : isMultispaceChar ch = false)
    (h2 : ('-' == ch) = false) (h3 : ('/' == ch) = false) :
    ∀ x : List Char, startsJunkB (ch :: x) = false := by
  intro x
  cases x with
  | nil => simpa [startsJunkB] using h1
  | cons x0 xs => simp [startsJunkB, h1, h2, h3]

theorem atomF_err_head {h0 : Char} {x : List Char}
    (hpar : ('(' == h0) = false) (ht : ('t' == h0) = false)
    (hf2 : ('f' == h0) = false) (hm : ('-' == h0) = false)
    (hd : h0.isDigit = false) (hq : (quoteChar == h0) = false)
    (hal : h0.isAlpha = false) (hu : ('_' == h0) = false) :
    ∀ f, parse_atomF (f + 2) (h0 :: x) = .err := by
  intro f
  have hvar := parse_var_head_err (x := x) hal hu
  have hparens : parse_parensF (f + 1) (h0 :: x) = .err := by
    rw [parse_parensF]
    simp only [tag_cons_ne hpar, pbind]
  have hbool : parse_bool (h0 :: x) = .err := by
    simp [parse_bool, alt2, pmap, tag_cons_ne ht, tag_cons_ne hf2, pbind]
  have hint : parse_int (h0 :: x) = .err := by
    have hdig : digit1 (h0 :: x) = .err := by
      simp [digit1, take_while1, List.takeWhile_cons, hd]
    simp [parse_int, recognize, ppair, opt, tag_cons_ne hm, hdig, pbind]
  have hstr : parse_str (h0 :: x) = .err := by
    rw [show parse_str (h0 :: x) =
      pbind (tag [quoteChar] (h0 :: x)) (fun i1 _ =>
        pbind (many0 (is_not quoteChar) i1) (fun i2 parts =>
          pbind (tag [quoteChar] i2)
            (fun i3 _ => .ok i3 (String.mk parts.flatten)))) from rfl]
    rw [tag_cons_ne hq]
    simp [pbind]
  rw [parse_atomF]
  simp [alt2, hparens, pmap, hbool, hint, hstr, hvar, pbind]

theorem letF_err_head {h0 : Char} {x : List Char}
    (hpar : ('(' == h0) = false) (ht : ('t' == h0) = false)
    (hf2 : ('f' == h0) = false) (hm : ('-' == h0) = false)
    (hd : h0.isDigit = false) (hq : (quoteChar == h0) = false)
    (hal : h0.isAlpha = false) (hu : ('_' == h0) = false)
    (hbang : ('!' == h0) = false) :
    ∀ f, parse_letF (f + 16) (h0 :: x) = .err := by
  have hvar := parse_var_head_err (x := x) hal hu
  have hatom := atomF_err_head (x := x) hpar ht hf2 hm hd hq hal hu
  have hnot : ∀ g, parse_notF (g + 3) (h0 :: x) = .err := by
    intro g
    rw [parse_notF, unary_op_pass (tag_cons_ne hbang)]
    exact hatom g
  have hand : ∀ g, parse_andF (g + 4) (h0 :: x) = .err := by
    intro g
    rw [parse_andF, binary_op_pass (hnot g)]
    exact hnot g
  have hor : ∀ g, parse_orF (g + 5) (h0 :: x) = .err := by
    intro g
    rw [parse_orF, binary_op_pass (hand g)]
    exact hand g
  have heq : ∀ g, parse_equalsF (g + 6) (h0 :: x) = .err := by
    intro g
    rw [parse_equalsF, binary_op_pass (hor g)]
    exact hor g
  have hcell : ∀ g, parse_cellF (g + 7) (h0 :: x) = .err := by
    intro g
    rw [parse_cellF, binary_op_pass hvar]
    exact heq g
  have hrow : ∀ g, parse_rowF (g + 8) (h0 :: x) = .err := by
    intro g
    rw [parse_rowF, binary_op_pass (hcell g)]
    exact hcell g
  have htable : ∀ g, parse_tableF (g + 9) (h0 :: x) = .err := by
    intro g
    rw [parse_tableF, binary_op_pass (hrow g)]
    exact hrow g
  have hprod : ∀ g, parse_productF (g + 10) (h0 :: x) = .err := by
    intro g
    rw [parse_productF, binary_op_pass (htable g)]
    exact htable g
  have hdiff : ∀ g, parse_differenceF (g + 11) (h0 :: x) = .err := by
    intro g
    rw [parse_differenceF, binary_op_pass (hprod g)]
    exact hprod g
  have huni : ∀ g, parse_unionF (g + 12) (h0 :: x) = .err := by
    intro g
    rw [parse_unionF, binary_op_pass (hdiff g)]
    exact hdiff g
  have hwhere : ∀ g, parse_whereF (g + 13) (h0 :: x) = .err := by
    intro g
    rw [parse_whereF, binary_op_pass (huni g)]
    exact huni g
  have hsv : ∀ g, parse_select_varsF (g + 1) (h0 :: x) = .err := by
    intro g
    rw [parse_select_varsF]
    simp [alt2, binary_op_pass hvar, fail, pmap, hvar, pbind]
  have hsel : ∀ g, parse_selectF (g + 15) (h0 :: x) = .err := by
    intro g
    rw [parse_selectF, binary_op_pass (hsv (g + 13))]
    exact hwhere (g + 1)
  intro f
  rw [parse_letF, ternary_op_pass hvar]
  exact hsel f

theorem binary_chain3 {X q : Nat → Parser Exp} {k : Exp → Exp → Exp}
    {o : List Char} {b c : Char} {va vb vc : Exp} {g : Nat} {I1 : List Char}
    (hXeq : ∀ n, X (n + 1) =
      parse_binary_op k (q n) o (X n) (q n))
    (hb : identStart b = true) (hc : identStart c = true)
    (hjT1 : startsJunkB (o ++ (b :: (o ++ [c]))) = false)
    (hjT2 : startsJunkB (o ++ [c]) = false)
    (htag1 : tag o (o ++ (b :: (o ++ [c]))) = .ok (b :: (o ++ [c])) o)
    (htag2 : tag o (o ++ [c]) = .ok [c] o)
    (htagnil : tag o [] = .err)
    (ht1 : q (g + 2) I1 = .ok (o ++ (b :: (o ++ [c]))) va)
    (ht2 : q (g + 1) (b :: (o ++ [c])) = .ok (o ++ [c]) vb)
    (ht3 : q g [c] = .ok [] vc) :
    X (g + 3) I1 = .ok [] (k va (k vb vc)) := by
  have hX1 : X (g + 1) [c] = .ok [] vc := by
    rw [hXeq g, binary_op_fall_tag ht3 junk_nil htagnil]
    exact ht3
  have hX2 : X (g + 2) (b :: (o ++ [c])) = .ok [] (k vb vc) := by
    rw [hXeq (g + 1)]
    exact binary_op_commit ht2 (junk_noop hjT2) htag2
      (junk_noop (startsJunk_ident hc [])) hX1
  rw [hXeq (g + 2)]
  exact binary_op_commit ht1 (junk_noop hjT1) htag1
    (junk_noop (startsJunk_ident hb (o ++ [c]))) hX2

theorem letF_fall_std {a : Char} {T1 : List Char} {g : Nat}
    (hvar : parse_var (a :: T1) = .ok T1 (String.mk [a]))
    (hT1junk : startsJunkB T1 = false) (hT1eq : headIs T1 '=' = false) :
    parse_letF (g + 15) (a :: T1) = parse_selectF (g + 14) (a :: T1) := by
  rw [parse_letF]
  exact ternary_op_fall_tag hvar (junk_noop hT1junk) (tag_of_headIs hT1eq)

theorem parse_exp_top {a : Char} {T1 : List Char} {v : Exp} {g : Nat}
    (ha : identStart a = true)
    (hT1ident : headIdent T1 = false)
    (hT1junk : startsJunkB T1 = false)
    (hT1comma : headIs T1 ',' = false)
    (hT1arrow : headIs T1 '<' = false)
    (hlet : parse_letF (g + 15) (a :: T1) = parse_selectF (g + 14) (a :: T1))
    (hwhere : parse_whereF (g + 13) (a :: T1) = .ok [] v) :
    parse_expF (g + 16) (a :: T1) = .ok [] v := by
  have hvar : parse_var (a :: T1) = .ok T1 (String.mk [a]) := by
    have h := parse_var_complete (c := a) (y := []) (z := T1) ha
      (by simp) hT1ident
    simpa using h
  have hsv : parse_select_varsF (g + 13) (a :: T1) =
      .ok T1 [String.mk [a]] := by
    rw [parse_select_varsF]
    have hb1 : parse_binary_op (fun v vs => v :: vs) parse_var [',']
        (parse_select_varsF (g + 12)) fail (a :: T1) = .err :=
      binary_op_fall_tag hvar (junk_noop hT1junk) (tag_of_headIs hT1comma)
    simp [alt2, hb1, pmap, hvar, pbind]
  have hsel : parse_selectF (g + 14) (a :: T1) = .ok [] v := by
    rw [parse_selectF,
      binary_op_fall_tag hsv (junk_noop hT1junk) (tag_of_headIs hT1arrow)]
    exact hwhere
  rw [parse_expF]
  have hj0 : junk (a :: T1) = .ok (a :: T1) () :=
    junk_noop (startsJunk_ident ha T1)
  simp [hj0, pbind, hlet, hsel, junk_nil]

theorem exp_chain_union {a b c : Char} (ha : identStart a = true)
    (hb : identStart b = true) (hc : identStart c = true) :
    parse_exp [a, '+', b, '+', c] =
      .ok [] (Exp.Union (Exp.Var (String.mk [a]))
        (Exp.Union (Exp.Var (String.mk [b])) (Exp.Var (String.mk [c])))) := by
  have hjT1 : startsJunkB ('+' :: b :: '+' :: [c]) = false :=
    startsJunk_of_facts (by decide) (by decide) (by decide) _
  have hjT2 : startsJunkB ('+' :: [c]) = false :=
    startsJunk_of_facts (by decide) (by decide) (by decide) _
  have ht1 := differenceF_var (a := a) (z := '+' :: b :: '+' :: [c]) ha
    (by rw [headIdent_cons]; decide) (by rw [headIs_cons]; decide)
    (by rw [headIs_cons]; decide) hjT1 (by rw [headIs_cons]; decide)
    (by rw [headIs_cons]; decide) (by rw [headIs_cons]; decide)
    (by rw [headIs_cons]; decide) (by rw [headIs_cons]; decide)
    (by rw [headIs_cons]; decide) (by rw [headIs_cons]; decide)
    (by rw [headIs_cons]; decide) 92
  have ht2 := differenceF_var (a := b) (z := '+' :: [c]) hb
    (by rw [headIdent_cons]; decide) (by rw [headIs_cons]; decide)
    (by rw [headIs_cons]; decide) hjT2 (by rw [headIs_cons]; decide)
    (by rw [headIs_cons]; decide) (by rw [headIs_cons]; decide)
    (by rw [headIs_cons]; decide) (by rw [headIs_cons]; decide)
    (by rw [headIs_cons]; decide) (by rw [headIs_cons]; decide)
    (by rw [headIs_cons]; decide) 91
  have ht3 := differenceF_var (a := c) (z := []) hc
    (by decide) (by decide) (by decide) (by decide) (by decide) (by decide)
    (by decide) (by decide) (by decide) (by decide) (by decide) (by decide) 90
  have huni := binary_chain3 (X := parse_unionF) (q := parse_differenceF)
    (k := fun l r => Exp.Union l r) (o := ['+']) (g := 101)
    (fun n => by rw [parse_unionF]) hb hc hjT1 hjT2
    (by simp [tag, List.isPrefixOf]) (by simp [tag, List.isPrefixOf])
    (by decide) ht1 ht2 ht3
  have hwhere : parse_whereF 105 [a, '+', b, '+', c] =
      .ok [] (Exp.Union (Exp.Var (String.mk [a]))
        (Exp.Union (Exp.Var (String.mk [b])) (Exp.Var (String.mk [c])))) := by
    rw [parse_whereF, binary_pass_nil huni]
    exact huni
  have hT1ident : headIdent ('+' :: b :: '+' :: [c]) = false := by
    rw [headIdent_cons]; decide
  have hvar : parse_var [a, '+', b, '+', c] =
      .ok ('+' :: b :: '+' :: [c]) (String.mk [a]) := by
    have h := parse_var_complete (c := a) (y := []) ha (by simp) hT1ident
    simpa using h
  have htop := parse_exp_top (g := 92) ha hT1ident hjT1
    (by rw [headIs_cons]; decide) (by rw [headIs_cons]; decide)
    (letF_fall_std hvar hjT1 (by rw [headIs_cons]; decide)) hwhere
  simpa [parse_exp, FUEL] using htop

theorem pass_to_whereF {i : List Char} {v : Exp} {g : Nat}
    (hcell : parse_cellF (g + 7) i = .ok [] v) :
    parse_whereF (g + 13) i = .ok [] v := by
  have hrow : parse_rowF (g + 8) i = .ok [] v := by
    rw [parse_rowF, binary_pass_nil hcell]; exact hcell
  have htab : parse_tableF (g + 9) i = .ok [] v := by
    rw [parse_tableF, binary_pass_nil hrow]; exact hrow
  have hprod : parse_productF (g + 10) i = .ok [] v := by
    rw [parse_productF, binary_pass_nil htab]; exact htab
  have hdiff : parse_differenceF (g + 11) i = .ok [] v := by
    rw [parse_differenceF, binary_pass_nil hprod]; exact hprod
  have huni : parse_unionF (g + 12) i = .ok [] v := by
    rw [parse_unionF, binary_pass_nil hdiff]; exact hdiff
  rw [parse_whereF, binary_pass_nil huni]
  exact huni

theorem cellfall_to_whereF {i T1 : List Char} {w : String} {v : Exp} {g : Nat}
    (hvar : parse_var i = .ok T1 w) (hjT1 : startsJunkB T1 = false)
    (hcol : headIs T1 ':' = false)
    (heq : parse_equalsF (g + 6) i = .ok [] v) :
    parse_whereF (g + 13) i = .ok [] v := by
  have hcell : parse_cellF (g + 7) i = .ok [] v := by
    rw [parse_cellF,
      binary_op_fall_tag hvar (junk_noop hjT1) (tag_of_headIs hcol)]
    exact heq
  exact pass_to_whereF hcell

theorem parse_exp_top2 {i : List Char} {v : Exp} {g : Nat}
    (hjunk0 : junk i = .ok i ())
    (hlet : parse_letF (g + 15) i = parse_selectF (g + 14) i)
    (hsel : parse_selectF (g + 14) i = .ok [] v) :
    parse_expF (g + 16) i = .ok [] v := by
  rw [parse_expF]
  simp [hjunk0, pbind, hlet, hsel, junk_nil]

theorem exp_chain_where {a b c : Char} (ha : identStart a = true)
    (hb : identStart b = true) (hc : identStart c = true) :
    parse_exp [a, '?', b, '?', c] =
      .ok [] (Exp.Where (Exp.Var (String.mk [a]))
        (Exp.Where (Exp.Var (String.mk [b])) (Exp.Var (String.mk [c])))) := by
  have hjT1 : startsJunkB ('?' :: b :: '?' :: [c]) = false :=
    startsJunk_of_facts (by decide) (by decide) (by decide) _
  have hjT2 : startsJunkB ('?' :: [c]) = false :=
    startsJunk_of_facts (by decide) (by decide) (by decide) _
  have ht1 := unionF_var (a := a) (z := '?' :: b :: '?' :: [c]) ha
    (by rw [headIdent_cons]; decide) (by rw [headIs_cons]; decide)
    (by rw [headIs_cons]; decide) hjT1 (by rw [headIs_cons]; decide)
    (by rw [headIs_cons]; decide) (by rw [headIs_cons]; decide)
    (by rw [headIs_cons]; decide) (by rw [headIs_cons]; decide)
    (by rw [headIs_cons]; decide) (by rw [headIs_cons]; decide)
    (by rw [headIs_cons]; decide) (by rw [headIs_cons]; decide) 92
  have ht2 := unionF_var (a := b) (z := '?' :: [c]) hb
    (by rw [headIdent_cons]; decide) (by rw [headIs_cons]; decide)
    (by rw [headIs_cons]; decide) hjT2 (by rw [headIs_cons]; decide)
    (by rw [headIs_cons]; decide) (by rw [headIs_cons]; decide)
    (by rw [headIs_cons]; decide) (by rw [headIs_cons]; decide)
    (by rw [headIs_cons]; decide) (by rw [headIs_cons]; decide)
    (by rw [headIs_cons]; decide) (by rw [headIs_cons]; decide) 91
  have ht3 := unionF_var (a := c) (z := []) hc
    (by decide) (by decide) (by decide) (by decide) (by decide) (by decide)
    (by decide) (by decide) (by decide) (by decide) (by decide) (by decide)
    (by decide) 90
  have hwhere := binary_chain3 (X := parse_whereF) (q := parse_unionF)
    (k := fun l r => Exp.Where l r) (o := ['?']) (g := 102)
    (fun n => by rw [parse_whereF]) hb hc hjT1 hjT2
    (by simp [tag, List.isPrefixOf]) (by simp [tag, List.isPrefixOf])
    (by decide) ht1 ht2 ht3
  have hT1ident : headIdent ('?' :: b :: '?' :: [c]) = false := by
    rw [headIdent_cons]; decide
  have hvar : parse_var [a, '?', b, '?', c] =
      .ok ('?' :: b :: '?' :: [c]) (String.mk [a]) := by
    have h := parse_var_complete (c := a) (y := []) ha (by simp) hT1ident
    simpa using h
  have htop := parse_exp_top (g := 92) ha hT1ident hjT1
    (by rw [headIs_cons]; decide) (by rw [headIs_cons]; decide)
    (letF_fall_std hvar hjT1 (by rw [headIs_cons]; decide)) hwhere
  simpa [parse_exp, FUEL] using htop

theorem exp_chain_difference {a b c : Char} (ha : identStart a = true)
    (hb : identStart b = true) (hc : identStart c = true) :
    parse_exp [a, '-', b, '-', c] =
      .ok [] (Exp.Difference (Exp.Var (String.mk [a]))
        (Exp.Difference (Exp.Var (String.mk [b]))
          (Exp.Var (String.mk [c])))) := by
  have hdb : ('-' == b) = false :=
    (beq_eq_false_of_identChar (identChar_of_identStart hb) (by decide)).2
  have hdc : ('-' == c) = false :=
    (beq_eq_false_of_identChar (identChar_of_identStart hc) (by decide)).2
  have hm : isMultispaceChar '-' = false := by decide
  have hsl : ('/' == '-') = false := by decide
  have hjT1 : startsJunkB ('-' :: b :: '-' :: [c]) = false := by
    simp [startsJunkB, hm, hdb, hsl]
  have hjT2 : startsJunkB ('-' :: [c]) = false := by
    simp [startsJunkB, hm, hdc, hsl]
  have ht1 := productF_var (a := a) (z := '-' :: b :: '-' :: [c]) ha
    (by rw [headIdent_cons]; decide) (by rw [headIs_cons]; decide)
    (by rw [headIs_cons]; decide) hjT1 (by rw [headIs_cons]; decide)
    (by rw [headIs_cons]; decide) (by rw [headIs_cons]; decide)
    (by rw [headIs_cons]; decide) (by rw [headIs_cons]; decide)
    (by rw [headIs_cons]; decide) (by rw [headIs_cons]; decide) 92
  have ht2 := productF_var (a := b) (z := '-' :: [c]) hb
    (by rw [headIdent_cons]; decide) (by rw [headIs_cons]; decide)
    (by rw [headIs_cons]; decide) hjT2 (by rw [headIs_cons]; decide)
    (by rw [headIs_cons]; decide) (by rw [headIs_cons]; decide)
    (by rw [headIs_cons]; decide) (by rw [headIs_cons]; decide)
    (by rw [headIs_cons]; decide) (by rw [headIs_cons]; decide) 91
  have ht3 := productF_var (a := c) (z := []) hc
    (by decide) (by decide) (by decide) (by decide) (by decide) (by decide)
    (by decide) (by decide) (by decide) (by decide) (by decide) 90
  have hdiff := binary_chain3 (X := parse_differenceF)
    (q := parse_productF)
    (k := fun l r => Exp.Difference l r) (o := ['-']) (g := 100)
    (fun n => by rw [parse_differenceF]) hb hc hjT1 hjT2
    (by simp [tag, List.isPrefixOf]) (by simp [tag, List.isPrefixOf])
    (by decide) ht1 ht2 ht3
  have huni : parse_unionF 104 [a, '-', b, '-', c] = .ok []
      (Exp.Difference (Exp.Var (String.mk [a]))
        (Exp.Difference (Exp.Var (String.mk [b])) (Exp.Var (String.mk [c])))) := by
    rw [parse_unionF, binary_pass_nil hdiff]; exact hdiff
  have hwhere : parse_whereF 105 [a, '-', b, '-', c] = .ok []
      (Exp.Difference (Exp.Var (String.mk [a]))
        (Exp.Difference (Exp.Var (String.mk [b])) (Exp.Var (String.mk [c])))) := by
    rw [parse_whereF, binary_pass_nil huni]; exact huni
  have hT1ident : headIdent ('-' :: b :: '-' :: [c]) = false := by
    rw [headIdent_cons]; decide
  have hvar : parse_var [a, '-', b, '-', c] =
      .ok ('-' :: b :: '-' :: [c]) (String.mk [a]) := by
    have h := parse_var_complete (c := a) (y := []) ha (by simp) hT1ident
    simpa using h
  have htop := parse_exp_top (g := 92) ha hT1ident hjT1
    (by rw [headIs_cons]; decide) (by rw [headIs_cons]; decide)
    (letF_fall_std hvar hjT1 (by rw [headIs_cons]; decide)) hwhere
  simpa [parse_exp, FUEL] using htop

theorem exp_chain_product {a b c : Char} (ha : identStart a = true)
    (hb : identStart b = true) (hc : identStart c = true) :
    parse_exp [a, '*', b, '*', c] =
      .ok [] (Exp.Product (Exp.Var (String.mk [a]))
        (Exp.Product (Exp.Var (String.mk [b])) (Exp.Var (String.mk [c])))) := by
  have hjT1 : startsJunkB ('*' :: b :: '*' :: [c]) = false :=
    startsJunk_of_facts (by decide) (by decide) (by decide) _
  have hjT2 : startsJunkB ('*' :: [c]) = false :=
    startsJunk_of_facts (by decide) (by decide) (by decide) _
  have ht1 := tableF_var (a := a) (z := '*' :: b :: '*' :: [c]) ha
    (by rw [headIdent_cons]; decide) (by rw [headIs_cons]; decide)
    (by rw [headIs_cons]; decide) hjT1 (by rw [headIs_cons]; decide)
    (by rw [headIs_cons]; decide) (by rw [headIs_cons]; decide)
    (by rw [headIs_cons]; decide) (by rw [headIs_cons]; decide)
    (by rw [headIs_cons]; decide) 92
  have ht2 := tableF_var (a := b) (z := '*' :: [c]) hb
    (by rw [headIdent_cons]; decide) (by rw [headIs_cons]; decide)
    (by rw [headIs_cons]; decide) hjT2 (by rw [headIs_cons]; decide)
    (by rw [headIs_cons]; decide) (by rw [headIs_cons]; decide)
    (by rw [headIs_cons]; decide) (by rw [headIs_cons]; decide)
    (by rw [headIs_cons]; decide) 91
  have ht3 := tableF_var (a := c) (z := []) hc
    (by decide) (by decide) (by decide) (by decide) (by decide) (by decide)
    (by decide) (by decide) (by decide) (by decide) 90
  have hprod := binary_chain3 (X := parse_productF) (q := parse_tableF)
    (k := fun l r => Exp.Product l r) (o := ['*']) (g := 99)
    (fun n => by rw [parse_productF]) hb hc hjT1 hjT2
    (by simp [tag, List.isPrefixOf]) (by simp [tag, List.isPrefixOf])
    (by decide) ht1 ht2 ht3
  have hdiff : parse_differenceF 103 [a, '*', b, '*', c] = .ok []
      (Exp.Product (Exp.Var (String.mk [a]))
        (Exp.Product (Exp.Var (String.mk [b])) (Exp.Var (String.mk [c])))) := by
    rw [parse_differenceF, binary_pass_nil hprod]; exact hprod
  have huni : parse_unionF 104 [a, '*', b, '*', c] = .ok []
      (Exp.Product (Exp.Var (String.mk [a]))
        (Exp.Product (Exp.Var (String.mk [b])) (Exp.Var (String.mk [c])))) := by
    rw [parse_unionF, binary_pass_nil hdiff]; exact hdiff
  have hwhere : parse_whereF 105 [a, '*', b, '*', c] = .ok []
      (Exp.Product (Exp.Var (String.mk [a]))
        (Exp.Product (Exp.Var (String.mk [b])) (Exp.Var (String.mk [c])))) := by
    rw [parse_whereF, binary_pass_nil huni]; exact huni
  have hT1ident : headIdent ('*' :: b :: '*' :: [c]) = false := by
    rw [headIdent_cons]; decide
  have hvar : parse_var [a, '*', b, '*', c] =
      .ok ('*' :: b :: '*' :: [c]) (String.mk [a]) := by
    have h := parse_var_complete (c := a) (y := []) ha (by simp) hT1ident
    simpa using h
  have htop := parse_exp_top (g := 92) ha hT1ident hjT1
    (by rw [headIs_cons]; decide) (by rw [headIs_cons]; decide)
    (letF_fall_std hvar hjT1 (by rw [headIs_cons]; decide)) hwhere
  simpa [parse_exp, FUEL] using htop

theorem exp_chain_table {a b c : Char} (ha : identStart a = true)
    (hb : identStart b = true) (hc : identStart c = true) :
    parse_exp [a, ';', b, ';', c] =
      .ok [] (Exp.Table (Exp.Var (String.mk [a]))
        (Exp.Table (Exp.Var (String.mk [b])) (Exp.Var (String.mk [c])))) := by
  have hjT1 : startsJunkB (';' :: b :: ';' :: [c]) = false :=
    startsJunk_of_facts (by decide) (by decide) (by decide) _
  have hjT2 : startsJunkB (';' :: [c]) = false :=
    startsJunk_of_facts (by decide) (by decide) (by decide) _
  have ht1 := rowF_var (a := a) (z := ';' :: b :: ';' :: [c]) ha
    (by rw [headIdent_cons]; decide) (by rw [headIs_cons]; decide)
    (by rw [headIs_cons]; decide) hjT1 (by rw [headIs_cons]; decide)
    (by rw [headIs_cons]; decide) (by rw [headIs_cons]; decide)
    (by rw [headIs_cons]; decide) (by rw [headIs_cons]; decide) 92
  have ht2 := rowF_var (a := b) (z := ';' :: [c]) hb
    (by rw [headIdent_cons]; decide) (by rw [headIs_cons]; decide)
    (by rw [headIs_cons]; decide) hjT2 (by rw [headIs_cons]; decide)
    (by rw [headIs_cons]; decide) (by rw [headIs_cons]; decide)
    (by rw [headIs_cons]; decide) (by rw [headIs_cons]; decide) 91
  have ht3 := rowF_var (a := c) (z := []) hc
    (by decide) (by decide) (by decide) (by decide) (by decide) (by decide)
    (by decide) (by decide) (by decide) 90
  have htab := binary_chain3 (X := parse_tableF) (q := parse_rowF)
    (k := fun l r => Exp.Table l r) (o := [';']) (g := 98)
    (fun n => by rw [parse_tableF]) hb hc hjT1 hjT2
    (by simp [tag, List.isPrefixOf]) (by simp [tag, List.isPrefixOf])
    (by decide) ht1 ht2 ht3
  have hprod : parse_productF 102 [a, ';', b, ';', c] = .ok []
      (Exp.Table (Exp.Var (String.mk [a]))
        (Exp.Table (Exp.Var (String.mk [b])) (Exp.Var (String.mk [c])))) := by
    rw [parse_productF, binary_pass_nil htab]; exact htab
  have hdiff : parse_differenceF 103 [a, ';', b, ';', c] = .ok []
      (Exp.Table (Exp.Var (String.mk [a]))
        (Exp.Table (Exp.Var (String.mk [b])) (Exp.Var (String.mk [c])))) := by
    rw [parse_differenceF, binary_pass_nil hprod]; exact hprod
  have huni : parse_unionF 104 [a, ';', b, ';', c] = .ok []
      (Exp.Table (Exp.Var (String.mk [a]))
        (Exp.Table (Exp.Var (String.mk [b])) (Exp.Var (String.mk [c])))) := by
    rw [parse_unionF, binary_pass_nil hdiff]; exact hdiff
  have hwhere : parse_whereF 105 [a, ';', b, ';', c] = .ok []
      (Exp.Table (Exp.Var (String.mk [a]))
        (Exp.Table (Exp.Var (String.mk [b])) (Exp.Var (String.mk [c])))) := by
    rw [parse_whereF, binary_pass_nil huni]; exact huni
  have hT1ident : headIdent (';' :: b :: ';' :: [c]) = false := by
    rw [headIdent_cons]; decide
  have hvar : parse_var [a, ';', b, ';', c] =
      .ok (';' :: b :: ';' :: [c]) (String.mk [a]) := by
    have h := parse_var_complete (c := a) (y := []) ha (by simp) hT1ident
    simpa using h
  have htop := parse_exp_top (g := 92) ha hT1ident hjT1
    (by rw [headIs_cons]; decide) (by rw [headIs_cons]; decide)
    (letF_fall_std hvar hjT1 (by rw [headIs_cons]; decide)) hwhere
  simpa [parse_exp, FUEL] using htop

theorem exp_chain_or {a b c : Char} (ha : identStart a = true)
    (hb : identStart b = true) (hc : identStart c = true) :
    parse_exp [a, '|', b, '|', c] =
      .ok [] (Exp.Or (Exp.Var (String.mk [a]))
        (Exp.Or (Exp.Var (String.mk [b])) (Exp.Var (String.mk [c])))) := by
  have hjT1 : startsJunkB ('|' :: b :: '|' :: [c]) = false :=
    startsJunk_of_facts (by decide) (by decide) (by decide) _
  have hjT2 : startsJunkB ('|' :: [c]) = false :=
    startsJunk_of_facts (by decide) (by decide) (by decide) _
  have ht1 := andF_var (a := a) (z := '|' :: b :: '|' :: [c]) ha
    (by rw [headIdent_cons]; decide) (by rw [headIs_cons]; decide)
    (by rw [headIs_cons]; decide) hjT1 (by rw [headIs_cons]; decide) 92
  have ht2 := andF_var (a := b) (z := '|' :: [c]) hb
    (by rw [headIdent_cons]; decide) (by rw [headIs_cons]; decide)
    (by rw [headIs_cons]; decide) hjT2 (by rw [headIs_cons]; decide) 91
  have ht3 := andF_var (a := c) (z := []) hc
    (by decide) (by decide) (by decide) (by decide) (by decide) 90
  have hor := binary_chain3 (X := parse_orF) (q := parse_andF)
    (k := fun l r => Exp.Or l r) (o := ['|']) (g := 94)
    (fun n => by rw [parse_orF]) hb hc hjT1 hjT2
    (by simp [tag, List.isPrefixOf]) (by simp [tag, List.isPrefixOf])
    (by decide) ht1 ht2 ht3
  have heq : parse_equalsF 98 [a, '|', b, '|', c] = .ok []
      (Exp.Or (Exp.Var (String.mk [a]))
        (Exp.Or (Exp.Var (String.mk [b])) (Exp.Var (String.mk [c])))) := by
    rw [parse_equalsF, binary_pass_nil hor]; exact hor
  have hT1ident : headIdent ('|' :: b :: '|' :: [c]) = false := by
    rw [headIdent_cons]; decide
  have hvar : parse_var [a, '|', b, '|', c] =
      .ok ('|' :: b :: '|' :: [c]) (String.mk [a]) := by
    have h := parse_var_complete (c := a) (y := []) ha (by simp) hT1ident
    simpa using h
  have hwhere := cellfall_to_whereF (g := 92) hvar hjT1
    (by rw [headIs_cons]; decide) heq
  have htop := parse_exp_top (g := 92) ha hT1ident hjT1
    (by rw [headIs_cons]; decide) (by rw [headIs_cons]; decide)
    (letF_fall_std hvar hjT1 (by rw [headIs_cons]; decide)) hwhere
  simpa [parse_exp, FUEL] using htop

theorem exp_chain_and {a b c : Char} (ha : identStart a = true)
    (hb : identStart b = true) (hc : identStart c = true) :
    parse_exp [a, '&', b, '&', c] =
      .ok [] (Exp.And (Exp.Var (String.mk [a]))
        (Exp.And (Exp.Var (String.mk [b])) (Exp.Var (String.mk [c])))) := by
  have hjT1 : startsJunkB ('&' :: b :: '&' :: [c]) = false :=
    startsJunk_of_facts (by decide) (by decide) (by decide) _
  have hjT2 : startsJunkB ('&' :: [c]) = false :=
    startsJunk_of_facts (by decide) (by decide) (by decide) _
  have ht1 := notF_var (a := a) (z := '&' :: b :: '&' :: [c]) ha
    (by rw [headIdent_cons]; decide) (by rw [headIs_cons]; decide)
    (by rw [headIs_cons]; decide) 92
  have ht2 := notF_var (a := b) (z := '&' :: [c]) hb
    (by rw [headIdent_cons]; decide) (by rw [headIs_cons]; decide)
    (by rw [headIs_cons]; decide) 91
  have ht3 := notF_var (a := c) (z := []) hc
    (by decide) (by decide) (by decide) 90
  have hand := binary_chain3 (X := parse_andF) (q := parse_notF)
    (k := fun l r => Exp.And l r) (o := ['&']) (g := 93)
    (fun n => by rw [parse_andF]) hb hc hjT1 hjT2
    (by simp [tag, List.isPrefixOf]) (by simp [tag, List.isPrefixOf])
    (by decide) ht1 ht2 ht3
  have hor : parse_orF 97 [a, '&', b, '&', c] = .ok []
      (Exp.And (Exp.Var (String.mk [a]))
        (Exp.And (Exp.Var (String.mk [b])) (Exp.Var (String.mk [c])))) := by
    rw [parse_orF, binary_pass_nil hand]; exact hand
  have heq : parse_equalsF 98 [a, '&', b, '&', c] = .ok []
      (Exp.And (Exp.Var (String.mk [a]))
        (Exp.And (Exp.Var (String.mk [b])) (Exp.Var (String.mk [c])))) := by
    rw [parse_equalsF, binary_pass_nil hor]; exact hor
  have hT1ident : headIdent ('&' :: b :: '&' :: [c]) = false := by
    rw [headIdent_cons]; decide
  have hvar : parse_var [a, '&', b, '&', c] =
      .ok ('&' :: b :: '&' :: [c]) (String.mk [a]) := by
    have h := parse_var_complete (c := a) (y := []) ha (by simp) hT1ident
    simpa using h
  have hwhere := cellfall_to_whereF (g := 92) hvar hjT1
    (by rw [headIs_cons]; decide) heq
  have htop := parse_exp_top (g := 92) ha hT1ident hjT1
    (by rw [headIs_cons]; decide) (by rw [headIs_cons]; decide)
    (letF_fall_std hvar hjT1 (by rw [headIs_cons]; decide)) hwhere
  simpa [parse_exp, FUEL] using htop

theorem exp_chain_equals {a b c : Char} (ha : identStart a = true)
    (hb : identStart b = true) (hc : identStart c = true) :
    parse_exp [a, '=', '=', b, '=', '=', c] =
      .ok [] (Exp.Equals (Exp.Var (String.mk [a]))
        (Exp.Equals (Exp.Var (String.mk [b])) (Exp.Var (String.mk [c])))) := by
  have hjT1 : startsJunkB ('=' :: '=' :: b :: '=' :: '=' :: [c]) = false :=
    startsJunk_of_facts (by decide) (by decide) (by decide) _
  have hjT2 : startsJunkB ('=' :: '=' :: [c]) = false :=
    startsJunk_of_facts (by decide) (by decide) (by decide) _
  have ht1 := orF_var (a := a) (z := '=' :: '=' :: b :: '=' :: '=' :: [c])
    ha (by rw [headIdent_cons]; decide) (by rw [headIs_cons]; decide)
    (by rw [headIs_cons]; decide) hjT1 (by rw [headIs_cons]; decide)
    (by rw [headIs_cons]; decide) 128
  have ht2 := orF_var (a := b) (z := '=' :: '=' :: [c]) hb
    (by rw [headIdent_cons]; decide) (by rw [headIs_cons]; decide)
    (by rw [headIs_cons]; decide) hjT2 (by rw [headIs_cons]; decide)
    (by rw [headIs_cons]; decide) 127
  have ht3 := orF_var (a := c) (z := []) hc
    (by decide) (by decide) (by decide) (by decide) (by decide)
    (by decide) 126
  have heqn := binary_chain3 (X := parse_equalsF) (q := parse_orF)
    (k := fun l r => Exp.Equals l r) (o := ['=', '=']) (g := 131)
    (fun n => by rw [parse_equalsF]) hb hc hjT1 hjT2
    (by simp [tag, List.isPrefixOf]) (by simp [tag, List.isPrefixOf])
    (by decide) ht1 ht2 ht3
  have hT1ident : headIdent ('=' :: '=' :: b :: '=' :: '=' :: [c]) = false := by
    rw [headIdent_cons]; decide
  have hvar : parse_var [a, '=', '=', b, '=', '=', c] =
      .ok ('=' :: '=' :: b :: '=' :: '=' :: [c]) (String.mk [a]) := by
    have h := parse_var_complete (c := a) (y := []) ha (by simp) hT1ident
    simpa using h
  have hwhere := cellfall_to_whereF (g := 128) hvar hjT1
    (by rw [headIs_cons]; decide) heqn
  have hT1tag : tag ['='] ('=' :: '=' :: b :: '=' :: '=' :: [c]) =
      .ok ('=' :: b :: '=' :: '=' :: [c]) ['='] := by
    simp [tag, List.isPrefixOf]
  have hjmid : startsJunkB ('=' :: b :: '=' :: '=' :: [c]) = false :=
    startsJunk_of_facts (by decide) (by decide) (by decide) _
  have hmid : parse_letF 142 ('=' :: b :: '=' :: '=' :: [c]) = .err :=
    letF_err_head (by decide) (by decide) (by decide) (by decide) (by decide)
      (by decide) (by decide) (by decide) (by decide) 126
  have hlet : parse_letF 143 [a, '=', '=', b, '=', '=', c] =
      parse_selectF 142 [a, '=', '=', b, '=', '=', c] := by
    rw [parse_letF]
    exact ternary_op_fall_middle hvar (junk_noop hjT1) hT1tag
      (junk_noop hjmid) hmid
  have htop := parse_exp_top (g := 128) ha hT1ident hjT1
    (by rw [headIs_cons]; decide) (by rw [headIs_cons]; decide) hlet hwhere
  simpa [parse_exp, FUEL] using htop

theorem exp_chain_cell {a b c : Char} (ha : identStart a = true)
    (hb : identStart b = true) (hc : identStart c = true) :
    parse_exp [a, ':', b, ':', c] =
      .ok [] (Exp.Cell (String.mk [a])
        (Exp.Cell (String.mk [b]) (Exp.Var (String.mk [c])))) := by
  have hjT1 : startsJunkB (':' :: b :: ':' :: [c]) = false :=
    startsJunk_of_facts (by decide) (by decide) (by decide) _
  have hjT2 : startsJunkB (':' :: [c]) = false :=
    startsJunk_of_facts (by decide) (by decide) (by decide) _
  have hT1ident : headIdent (':' :: b :: ':' :: [c]) = false := by
    rw [headIdent_cons]; decide
  have hvarA : parse_var [a, ':', b, ':', c] =
      .ok (':' :: b :: ':' :: [c]) (String.mk [a]) := by
    have h := parse_var_complete (c := a) (y := []) ha (by simp) hT1ident
    simpa using h
  have hvarB : parse_var (b :: ':' :: [c]) = .ok (':' :: [c]) (String.mk [b]) := by
    have h := parse_var_complete (c := b) (y := []) (z := ':' :: [c]) hb
      (by simp) (by rw [headIdent_cons]; decide)
    simpa using h
  have hvarC : parse_var [c] = .ok [] (String.mk [c]) := by
    have h := parse_var_complete (c := c) (y := []) (z := []) hc
      (by simp) (by decide)
    simpa using h
  have heqC := equalsF_var (a := c) (z := []) hc
    (by decide) (by decide) (by decide) (by decide) (by decide) (by decide)
    (by decide) 90
  have hcell3 : parse_cellF 97 [c] = .ok [] (Exp.Var (String.mk [c])) := by
    rw [parse_cellF, binary_op_fall_tag hvarC junk_nil tag_nil_input]
    exact heqC
  have hcell2 : parse_cellF 98 (b :: ':' :: [c]) =
      .ok [] (Exp.Cell (String.mk [b]) (Exp.Var (String.mk [c]))) := by
    rw [parse_cellF]
    exact binary_op_commit hvarB (junk_noop hjT2)
      (by simp [tag, List.isPrefixOf] : tag [':'] (':' :: [c]) = .ok [c] [':'])
      (junk_noop (startsJunk_ident hc [])) hcell3
  have hcell1 : parse_cellF 99 [a, ':', b, ':', c] =
      .ok [] (Exp.Cell (String.mk [a])
        (Exp.Cell (String.mk [b]) (Exp.Var (String.mk [c])))) := by
    rw [parse_cellF]
    exact binary_op_commit hvarA (junk_noop hjT1)
      (by simp [tag, List.isPrefixOf] :
        tag [':'] (':' :: b :: ':' :: [c]) = .ok (b :: ':' :: [c]) [':'])
      (junk_noop (startsJunk_ident hb (':' :: [c]))) hcell2
  have hwhere := pass_to_whereF (g := 92) hcell1
  have htop := parse_exp_top (g := 92) ha hT1ident hjT1
    (by rw [headIs_cons]; decide) (by rw [headIs_cons]; decide)
    (letF_fall_std hvarA hjT1 (by rw [headIs_cons]; decide)) hwhere
  simpa [parse_exp, FUEL] using htop

theorem exp_chain_row {a b c : Char} (ha : identStart a = true)
    (hb : identStart b = true) (hc : identStart c = true) :
    parse_exp [a, ',', b, ',', c] =
      .ok [] (Exp.Row (Exp.Var (String.mk [a]))
        (Exp.Row (Exp.Var (String.mk [b])) (Exp.Var (String.mk [c])))) := by
  have hjT1 : startsJunkB (',' :: b :: ',' :: [c]) = false :=
    startsJunk_of_facts (by decide) (by decide) (by decide) _
  have hjT2 : startsJunkB (',' :: [c]) = false :=
    startsJunk_of_facts (by decide) (by decide) (by decide) _
  have hT1ident : headIdent (',' :: b :: ',' :: [c]) = false := by
    rw [headIdent_cons]; decide
  have hvarA : parse_var [a, ',', b, ',', c] =
      .ok (',' :: b :: ',' :: [c]) (String.mk [a]) := by
    have h := parse_var_complete (c := a) (y := []) ha (by simp) hT1ident
    simpa using h
  have hvarB : parse_var (b :: ',' :: [c]) = .ok (',' :: [c]) (String.mk [b]) := by
    have h := parse_var_complete (c := b) (y := []) (z := ',' :: [c]) hb
      (by simp) (by rw [headIdent_cons]; decide)
    simpa using h
  have hvarC : parse_var [c] = .ok [] (String.mk [c]) := by
    have h := parse_var_complete (c := c) (y := []) (z := []) hc
      (by simp) (by decide)
    simpa using h
  have ht1 := cellF_var (a := a) (z := ',' :: b :: ',' :: [c]) ha
    (by rw [headIdent_cons]; decide) (by rw [headIs_cons]; decide)
    (by rw [headIs_cons]; decide) hjT1 (by rw [headIs_cons]; decide)
    (by rw [headIs_cons]; decide) (by rw [headIs_cons]; decide)
    (by rw [headIs_cons]; decide) 92
  have ht2 := cellF_var (a := b) (z := ',' :: [c]) hb
    (by rw [headIdent_cons]; decide) (by rw [headIs_cons]; decide)
    (by rw [headIs_cons]; decide) hjT2 (by rw [headIs_cons]; decide)
    (by rw [headIs_cons]; decide) (by rw [headIs_cons]; decide)
    (by rw [headIs_cons]; decide) 91
  have ht3 := cellF_var (a := c) (z := []) hc
    (by decide) (by decide) (by decide) (by decide) (by decide) (by decide)
    (by decide) (by decide) 90
  have hrow := binary_chain3 (X := parse_rowF) (q := parse_cellF)
    (k := fun l r => Exp.Row l r) (o := [',']) (g := 97)
    (fun n => by rw [parse_rowF]) hb hc hjT1 hjT2
    (by simp [tag, List.isPrefixOf]) (by simp [tag, List.isPrefixOf])
    (by decide) ht1 ht2 ht3
  have htab : parse_tableF 101 [a, ',', b, ',', c] = .ok []
      (Exp.Row (Exp.Var (String.mk [a]))
        (Exp.Row (Exp.Var (String.mk [b])) (Exp.Var (String.mk [c])))) := by
    rw [parse_tableF, binary_pass_nil hrow]; exact hrow
  have hprod : parse_productF 102 [a, ',', b, ',', c] = .ok []
      (Exp.Row (Exp.Var (String.mk [a]))
        (Exp.Row (Exp.Var (String.mk [b])) (Exp.Var (String.mk [c])))) := by
    rw [parse_productF, binary_pass_nil htab]; exact htab
  have hdiff : parse_differenceF 103 [a, ',', b, ',', c] = .ok []
      (Exp.Row (Exp.Var (String.mk [a]))
        (Exp.Row (Exp.Var (String.mk [b])) (Exp.Var (String.mk [c])))) := by
    rw [parse_differenceF, binary_pass_nil hprod]; exact hprod
  have huni : parse_unionF 104 [a, ',', b, ',', c] = .ok []
      (Exp.Row (Exp.Var (String.mk [a]))
        (Exp.Row (Exp.Var (String.mk [b])) (Exp.Var (String.mk [c])))) := by
    rw [parse_unionF, binary_pass_nil hdiff]; exact hdiff
  have hwhere : parse_whereF 105 [a, ',', b, ',', c] = .ok []
      (Exp.Row (Exp.Var (String.mk [a]))
        (Exp.Row (Exp.Var (String.mk [b])) (Exp.Var (String.mk [c])))) := by
    rw [parse_whereF, binary_pass_nil huni]; exact huni
  have hsv3 : parse_select_varsF 103 [c] = .ok [] [String.mk [c]] := by
    rw [parse_select_varsF]
    have hb1 : parse_binary_op (fun v vs => v :: vs) parse_var [',']
        (parse_select_varsF 102) fail [c] = .err := by
      rw [binary_op_fall_tag hvarC junk_nil tag_nil_input]
      rfl
    simp [alt2, hb1, pmap, hvarC, pbind]
  have hsv2 : parse_select_varsF 104 (b :: ',' :: [c]) =
      .ok [] [String.mk [b], String.mk [c]] := by
    rw [parse_select_varsF]
    have hb1 : parse_binary_op (fun v vs => v :: vs) parse_var [',']
        (parse_select_varsF 103) fail (b :: ',' :: [c]) =
        .ok [] [String.mk [b], String.mk [c]] :=
      binary_op_commit hvarB (junk_noop hjT2)
        (by simp [tag, List.isPrefixOf] : tag [','] (',' :: [c]) = .ok [c] [','])
        (junk_noop (startsJunk_ident hc [])) hsv3
    simp [alt2, hb1]
  have hsv1 : parse_select_varsF 105 [a, ',', b, ',', c] =
      .ok [] [String.mk [a], String.mk [b], String.mk [c]] := by
    rw [parse_select_varsF]
    have hb1 : parse_binary_op (fun v vs => v :: vs) parse_var [',']
        (parse_select_varsF 104) fail [a, ',', b, ',', c] =
        .ok [] [String.mk [a], String.mk [b], String.mk [c]] :=
      binary_op_commit hvarA (junk_noop hjT1)
        (by simp [tag, List.isPrefixOf] :
          tag [','] (',' :: b :: ',' :: [c]) = .ok (b :: ',' :: [c]) [','])
        (junk_noop (startsJunk_ident hb (',' :: [c]))) hsv2
    simp [alt2, hb1]
  have hsel : parse_selectF 106 [a, ',', b, ',', c] = .ok []
      (Exp.Row (Exp.Var (String.mk [a]))
        (Exp.Row (Exp.Var (String.mk [b])) (Exp.Var (String.mk [c])))) := by
    rw [parse_selectF, binary_op_fall_tag hsv1 junk_nil tag_nil_input]
    exact hwhere
  have htop := parse_exp_top2 (g := 92)
    (junk_noop (startsJunk_ident ha (',' :: b :: ',' :: [c])))
    (letF_fall_std hvarA hjT1 (by rw [headIs_cons]; decide)) hsel
  simpa [parse_exp, FUEL] using htop

/-- C3: for every binary operator layer (Union `+`, Difference `-`, Product `*`,
Table `;`, Row `,`, Cell `:`, Equals `==`, Or `|`, And `&`, Where `?`) and every
chain `a OP b OP c` of three identifier operands, the parsed AST is the
right-associated `OP(a, OP(b, c))`, never the left-grouped form. -/
theorem c3_right_associated_chains {a b c : Char} (ha : identStart a = true)
    (hb : identStart b = true) (hc : identStart c = true) :
    parse_exp [a, '+', b, '+', c] =
      .ok [] (Exp.Union (Exp.Var (String.mk [a]))
        (Exp.Union (Exp.Var (String.mk [b])) (Exp.Var (String.mk [c])))) ∧
    parse_exp [a, '-', b, '-', c] =
      .ok [] (Exp.Difference (Exp.Var (String.mk [a]))
        (Exp.Difference (Exp.Var (String.mk [b])) (Exp.Var (String.mk [c])))) ∧
    parse_exp [a, '*', b, '*', c] =
      .ok [] (Exp.Product (Exp.Var (String.mk [a]))
        (Exp.Product (Exp.Var (String.mk [b])) (Exp.Var (String.mk [c])))) ∧
    parse_exp [a, ';', b, ';', c] =
      .ok [] (Exp.Table (Exp.Var (String.mk [a]))
        (Exp.Table (Exp.Var (String.mk [b])) (Exp.Var (String.mk [c])))) ∧
    parse_exp [a, ',', b, ',', c] =
      .ok [] (Exp.Row (Exp.Var (String.mk [a]))
        (Exp.Row (Exp.Var (String.mk [b])) (Exp.Var (String.mk [c])))) ∧
    parse_exp [a, ':', b, ':', c] =
      .ok [] (Exp.Cell (String.mk [a])
        (Exp.Cell (String.mk [b]) (Exp.Var (String.mk [c])))) ∧
    parse_exp [a, '=', '=', b, '=', '=', c] =
      .ok [] (Exp.Equals (Exp.Var (String.mk [a]))
        (Exp.Equals (Exp.Var (String.mk [b])) (Exp.Var (String.mk [c])))) ∧
    parse_exp [a, '|', b, '|', c] =
      .ok [] (Exp.Or (Exp.Var (String.mk [a]))
        (Exp.Or (Exp.Var (String.mk [b])) (Exp.Var (String.mk [c])))) ∧
    parse_exp [a, '&', b, '&', c] =
      .ok [] (Exp.And (Exp.Var (String.mk [a]))
        (Exp.And (Exp.Var (String.mk [b])) (Exp.Var (String.mk [c])))) ∧
    parse_exp [a, '?', b, '?', c] =
      .ok [] (Exp.Where (Exp.Var (String.mk [a]))
        (Exp.Where (Exp.Var (String.mk [b])) (Exp.Var (String.mk [c])))) :=
  ⟨exp_chain_union ha hb hc, exp_chain_difference ha hb hc,
   exp_chain_product ha hb hc, exp_chain_table ha hb hc,
   exp_chain_row ha hb hc, exp_chain_cell ha hb hc,
   exp_chain_equals ha hb hc, exp_chain_or ha hb hc,
   exp_chain_and ha hb hc, exp_chain_where ha hb hc⟩

theorem c3_right_associated_chains_witness :
    identStart 'x' = true ∧ identStart 'y' = true ∧ identStart 'z' = true ∧
    (parse_exp ['x', '+', 'y', '+', 'z'] =
      .ok [] (Exp.Union (Exp.Var (String.mk ['x']))
        (Exp.Union (Exp.Var (String.mk ['y'])) (Exp.Var (String.mk ['z'])))) ∧
    parse_exp ['x', '-', 'y', '-', 'z'] =
      .ok [] (Exp.Difference (Exp.Var (String.mk ['x']))
        (Exp.Difference (Exp.Var (String.mk ['y'])) (Exp.Var (String.mk ['z'])))) ∧
    parse_exp ['x', '*', 'y', '*', 'z'] =
      .ok [] (Exp.Product (Exp.Var (String.mk ['x']))
        (Exp.Product (Exp.Var (String.mk ['y'])) (Exp.Var (String.mk ['z'])))) ∧
    parse_exp ['x', ';', 'y', ';', 'z'] =
      .ok [] (Exp.Table (Exp.Var (String.mk ['x']))
        (Exp.Table (Exp.Var (String.mk ['y'])) (Exp.Var (String.mk ['z'])))) ∧
    parse_exp ['x', ',', 'y', ',', 'z'] =
      .ok [] (Exp.Row (Exp.Var (String.mk ['x']))
        (Exp.Row (Exp.Var (String.mk ['y'])) (Exp.Var (String.mk ['z'])))) ∧
    parse_exp ['x', ':', 'y', ':', 'z'] =
      .ok [] (Exp.Cell (String.mk ['x'])
        (Exp.Cell (String.mk ['y']) (Exp.Var (String.mk ['z'])))) ∧
    parse_exp ['x', '=', '=', 'y', '=', '=', 'z'] =
      .ok [] (Exp.Equals (Exp.Var (String.mk ['x']))
        (Exp.Equals (Exp.Var (String.mk ['y'])) (Exp.Var (String.mk ['z'])))) ∧
    parse_exp ['x', '|', 'y', '|', 'z'] =
      .ok [] (Exp.Or (Exp.Var (String.mk ['x']))
        (Exp.Or (Exp.Var (String.mk ['y'])) (Exp.Var (String.mk ['z'])))) ∧
    parse_exp ['x', '&', 'y', '&', 'z'] =
      .ok [] (Exp.And (Exp.Var (String.mk ['x']))
        (Exp.And (Exp.Var (String.mk ['y'])) (Exp.Var (String.mk ['z'])))) ∧
    parse_exp ['x', '?', 'y', '?', 'z'] =
      .ok [] (Exp.Where (Exp.Var (String.mk ['x']))
        (Exp.Where (Exp.Var (String.mk ['y'])) (Exp.Var (String.mk ['z']))))) :=
  ⟨by decide, by decide, by decide,
   c3_right_associated_chains (by decide) (by decide) (by decide)⟩

theorem binary_op_ok_shape {L R T : Type} {con : L → R → T} {pl : Parser L}
    {op : List Char} {pr : Parser R} {i rest : List Char} {v : T}
    (h : parse_binary_op con pl op pr fail i = .ok rest v) :
    ∃ l r, v = con l r := by
  simp only [parse_binary_op] at h
  cases hpl : pl i with
  | err => simp [hpl, pbind, fail] at h
  | oof => simp [hpl, pbind, fail] at h
  | ok i1 l =>
    simp only [hpl, pbind] at h
    cases hj : junk i1 with
    | err => simp [hj, pbind, fail] at h
    | oof => simp [hj, pbind, fail] at h
    | ok i2 u =>
      simp only [hj, pbind] at h
      cases ht : tag op i2 with
      | err => simp [ht, pbind, fail] at h
      | oof => simp [ht, pbind, fail] at h
      | ok i3 t =>
        simp only [ht, pbind] at h
        cases hj2 : junk i3 with
        | err => simp [hj2, pbind, fail] at h
        | oof => simp [hj2, pbind, fail] at h
        | ok i4 u2 =>
          simp only [hj2, pbind] at h
          cases hr : pr i4 with
          | err => simp [hr, pbind, fail] at h
          | oof => simp [hr, pbind, fail] at h
          | ok i5 r =>
            simp only [hr, pbind] at h
            cases h
            exact ⟨l, r, rfl⟩

theorem select_varsF_ne {fuel : Nat} {i rest : List Char} {vs : List String}
    (h : parse_select_varsF fuel i = .ok rest vs) : vs ≠ [] := by
  cases fuel with
  | zero => exact absurd h (by simp [parse_select_varsF])
  | succ g =>
    rw [parse_select_varsF] at h
    simp only [alt2] at h
    cases hB : parse_binary_op (fun v vs => v :: vs) parse_var [',']
        (parse_select_varsF g) fail i with
    | err =>
      simp only [hB] at h
      simp only [pmap] at h
      obtain ⟨r1, a, _, h2⟩ := pbind_ok h
      cases h2
      simp
    | ok r1 a =>
      simp only [hB] at h
      cases h
      obtain ⟨l, r, hv⟩ := binary_op_ok_shape hB
      subst hv
      simp
    | oof =>
      simp only [hB] at h
      exact PRes.noConfusion h

theorem inter_len : ∀ (ms : List Char) (m : Char),
    (List.intersperse ',' (m :: ms)).length = 2 * ms.length + 1 := by
  intro ms
  induction ms with
  | nil => intro m; rfl
  | cons u us ih =>
    intro m
    rw [List.intersperse_cons_cons]
    simp only [List.length_cons, ih u]
    omega

theorem sv_render (ns : List Char) : ∀ (n : Char) (fuel : Nat),
    identStart n = true → (∀ x ∈ ns, identStart x = true) →
    ns.length < fuel →
    parse_select_varsF fuel
        (List.intersperse ',' (n :: ns) ++ ['<', '-', 't', 'r', 'u', 'e']) =
      .ok ['<', '-', 't', 'r', 'u', 'e']
        ((n :: ns).map (fun c => String.mk [c])) := by
  induction ns with
  | nil =>
    intro n fuel hn _ hfuel
    obtain ⟨g, rfl⟩ : ∃ g, fuel = g + 1 := ⟨fuel - 1, by omega⟩
    rw [parse_select_varsF]
    have hvar : parse_var (n :: ['<', '-', 't', 'r', 'u', 'e']) =
        .ok ['<', '-', 't', 'r', 'u', 'e'] (String.mk [n]) := by
      have h := parse_var_complete (c := n) (y := [])
        (z := ['<', '-', 't', 'r', 'u', 'e']) hn (by simp) (by decide)
      simpa using h
    have hfall : parse_binary_op (fun v vs => v :: vs) parse_var [',']
        (parse_select_varsF g) fail
        (n :: ['<', '-', 't', 'r', 'u', 'e']) = .err := by
      rw [binary_op_fall_tag hvar
        (junk_noop (startsJunk_of_facts (by decide) (by decide) (by decide) _))
        (tag_of_headIs (by decide))]
      rfl
    rw [List.intersperse_singleton, List.singleton_append]
    simp [alt2, hfall, pmap, hvar, pbind]
  | cons m ms ih =>
    intro n fuel hn hns hfuel
    obtain ⟨g, rfl⟩ : ∃ g, fuel = g + 1 := ⟨fuel - 1, by omega⟩
    have hm : identStart m = true := hns m (by simp)
    have hms : ∀ x ∈ ms, identStart x = true := fun x hx => hns x (by simp [hx])
    obtain ⟨T, hT⟩ : ∃ T, List.intersperse ',' (m :: ms) = m :: T := by
      cases ms with
      | nil => exact ⟨[], rfl⟩
      | cons u us => exact ⟨',' :: List.intersperse ',' (u :: us), rfl⟩
    rw [List.intersperse_cons_cons, List.cons_append, List.cons_append]
    rw [parse_select_varsF]
    have hvar : parse_var
        (n :: ',' :: (List.intersperse ',' (m :: ms) ++
          ['<', '-', 't', 'r', 'u', 'e'])) =
        .ok (',' :: (List.intersperse ',' (m :: ms) ++
          ['<', '-', 't', 'r', 'u', 'e'])) (String.mk [n]) := by
      have h := parse_var_complete (c := n) (y := [])
        (z := ',' :: (List.intersperse ',' (m :: ms) ++
          ['<', '-', 't', 'r', 'u', 'e'])) hn (by simp)
        (by rw [headIdent_cons]; decide)
      simpa using h
    have hright := ih m g hm hms (by simp at hfuel; omega)
    have hj2 : startsJunkB (List.intersperse ',' (m :: ms) ++
        ['<', '-', 't', 'r', 'u', 'e']) = false := by
      rw [hT, List.cons_append]
      exact startsJunk_ident hm _
    have hb1 : parse_binary_op (fun v vs => v :: vs) parse_var [',']
        (parse_select_varsF g) fail
        (n :: ',' :: (List.intersperse ',' (m :: ms) ++
          ['<', '-', 't', 'r', 'u', 'e'])) =
        .ok ['<', '-', 't', 'r', 'u', 'e']
          (String.mk [n] :: ((m :: ms).map (fun c => String.mk [c]))) :=
      binary_op_commit hvar
        (junk_noop (startsJunk_of_facts (by decide) (by decide) (by decide) _))
        (by simp [tag, List.isPrefixOf] :
          tag [','] (',' :: (List.intersperse ',' (m :: ms) ++
            ['<', '-', 't', 'r', 'u', 'e'])) =
          .ok (List.intersperse ',' (m :: ms) ++
            ['<', '-', 't', 'r', 'u', 'e']) [','])
        (junk_noop hj2) hright
    simp [alt2, hb1]

theorem whereF_true : ∀ f : Nat,
    parse_whereF (f + 13) ['t', 'r', 'u', 'e'] = .ok [] (Exp.Bool true) := by
  intro f
  have hpar : parse_parensF (f + 1) ['t', 'r', 'u', 'e'] = .err := by
    simp only [parse_parensF]
    rw [tag_cons_ne (by decide)]
    simp [pbind]
  have hbool : parse_bool ['t', 'r', 'u', 'e'] = .ok [] true := by
    simp [parse_bool, alt2, pmap, tag, List.isPrefixOf, pbind]
  have hatom : parse_atomF (f + 2) ['t', 'r', 'u', 'e'] =
      .ok [] (Exp.Bool true) := by
    simp [parse_atomF, alt2, hpar, pmap, hbool, pbind]
  have hnot : parse_notF (f + 3) ['t', 'r', 'u', 'e'] =
      .ok [] (Exp.Bool true) := by
    rw [parse_notF, unary_op_pass (tag_cons_ne (by decide))]
    exact hatom
  have hand : parse_andF (f + 4) ['t', 'r', 'u', 'e'] =
      .ok [] (Exp.Bool true) := by
    rw [parse_andF, binary_pass_nil hnot]
    exact hnot
  have hor : parse_orF (f + 5) ['t', 'r', 'u', 'e'] =
      .ok [] (Exp.Bool true) := by
    rw [parse_orF, binary_pass_nil hand]
    exact hand
  have hequals : parse_equalsF (f + 6) ['t', 'r', 'u', 'e'] =
      .ok [] (Exp.Bool true) := by
    rw [parse_equalsF, binary_pass_nil hor]
    exact hor
  have hvar : parse_var ['t', 'r', 'u', 'e'] =
      .ok [] (String.mk ['t', 'r', 'u', 'e']) := by
    have h := parse_var_complete (c := 't') (y := ['r', 'u', 'e']) (z := [])
      (by decide) (by decide) (by decide)
    simpa using h
  exact cellfall_to_whereF (g := f) hvar (by decide) (by decide) hequals

theorem selectF_true : ∀ f : Nat,
    parse_selectF (f + 16) ['t', 'r', 'u', 'e'] = .ok [] (Exp.Bool true) := by
  intro f
  have hvar : parse_var ['t', 'r', 'u', 'e'] =
      .ok [] (String.mk ['t', 'r', 'u', 'e']) := by
    have h := parse_var_complete (c := 't') (y := ['r', 'u', 'e']) (z := [])
      (by decide) (by decide) (by decide)
    simpa using h
  have hsv : parse_select_varsF (f + 15) ['t', 'r', 'u', 'e'] =
      .ok [] [String.mk ['t', 'r', 'u', 'e']] := by
    rw [parse_select_varsF]
    have hfall : parse_binary_op (fun v vs => v :: vs) parse_var [',']
        (parse_select_varsF (f + 14)) fail ['t', 'r', 'u', 'e'] = .err := by
      rw [binary_op_fall_tag hvar junk_nil tag_nil_input]
      rfl
    simp [alt2, hfall, pmap, hvar, pbind]
  rw [parse_selectF]
  rw [binary_op_fall_tag hsv junk_nil tag_nil_input]
  exact whereF_true (f + 2)

theorem selectF_render {ns : List Char} {n : Char} {u : Nat}
    (hn : identStart n = true) (hns : ∀ x ∈ ns, identStart x = true)
    (hfuel : ns.length + 17 ≤ u) :
    parse_selectF u
        (List.intersperse ',' (n :: ns) ++ ['<', '-', 't', 'r', 'u', 'e']) =
      .ok [] (Exp.Select ((n :: ns).map (fun c => String.mk [c]))
        (Exp.Bool true)) := by
  obtain ⟨g, rfl⟩ : ∃ g, u = g + 17 := ⟨u - 17, by omega⟩
  rw [parse_selectF]
  have hsv := sv_render ns n (g + 16) hn hns (by omega)
  exact binary_op_commit hsv
    (junk_noop (startsJunk_of_facts (by decide) (by decide) (by decide) _))
    (by simp [tag, List.isPrefixOf] :
      tag ['<', '-'] ['<', '-', 't', 'r', 'u', 'e'] =
        .ok ['t', 'r', 'u', 'e'] ['<', '-'])
    (junk_noop (startsJunk_of_facts (by decide) (by decide) (by decide) _))
    (selectF_true g)

/-- C9: parsing `v1,v2,...,vN<-true` (any nonempty comma-separated run of
identifier variables before `<-`) yields a `Select` node whose variable
sequence is exactly the N source variables in left-to-right order; moreover
every successful run of the select-variable sub-parser returns a non-empty
sequence. -/
theorem c9_select_vars_count_order (n : Char) (ns : List Char)
    (hn : identStart n = true) (hns : ∀ x ∈ ns, identStart x = true) :
    parse_exp (List.intersperse ',' (n :: ns) ++
        ['<', '-', 't', 'r', 'u', 'e']) =
      .ok [] (Exp.Select ((n :: ns).map (fun c => String.mk [c]))
        (Exp.Bool true)) ∧
    ((n :: ns).map (fun c => String.mk [c])).length = (n :: ns).length ∧
    (∀ (fuel : Nat) (i rest : List Char) (vs : List String),
      parse_select_varsF fuel i = .ok rest vs → vs ≠ []) := by
  refine ⟨?_, by simp, fun fuel i rest vs h => select_varsF_ne h⟩
  obtain ⟨T, hiT, hTident, hTjunk, hTeq⟩ : ∃ T,
      List.intersperse ',' (n :: ns) ++ ['<', '-', 't', 'r', 'u', 'e'] =
        n :: T ∧ headIdent T = false ∧ startsJunkB T = false ∧
        headIs T '=' = false := by
    cases ns with
    | nil =>
      exact ⟨['<', '-', 't', 'r', 'u', 'e'], by simp, by decide, by decide,
        by decide⟩
    | cons m ms =>
      refine ⟨',' :: (List.intersperse ',' (m :: ms) ++
        ['<', '-', 't', 'r', 'u', 'e']), ?_, by rw [headIdent_cons]; decide,
        startsJunk_of_facts (by decide) (by decide) (by decide) _,
        by rw [headIs_cons]; decide⟩
      rw [List.intersperse_cons_cons, List.cons_append, List.cons_append]
  have hlenI : (List.intersperse ',' (n :: ns) ++
      ['<', '-', 't', 'r', 'u', 'e']).length = 2 * ns.length + 7 := by
    rw [List.length_append, inter_len ns n]
    simp
  rw [hiT] at hlenI ⊢
  have hvar : parse_var (n :: T) = .ok T (String.mk [n]) := by
    have h := parse_var_complete (c := n) (y := []) (z := T) hn (by simp)
      hTident
    simpa using h
  have hlet := letF_fall_std (g := 36 * ns.length + 128) hvar hTjunk hTeq
  have hsel0 := selectF_render (u := 36 * ns.length + 142) hn hns (by omega)
  rw [hiT] at hsel0
  have htop := parse_exp_top2 (g := 36 * ns.length + 128)
    (junk_noop (startsJunk_ident hn T)) hlet hsel0
  have hF : FUEL (n :: T) = 36 * ns.length + 128 + 16 := by
    simp only [FUEL, List.length_cons]
    simp only [List.length_cons] at hlenI
    omega
  show parse_expF (FUEL (n :: T)) (n :: T) = _
  rw [hF]
  exact htop


theorem c9_select_vars_count_order_witness :
    identStart 'x' = true ∧ (∀ x ∈ ['y', 'z'], identStart x = true) ∧
    (parse_exp ['x', ',', 'y', ',', 'z', '<', '-', 't', 'r', 'u', 'e'] =
      .ok [] (Exp.Select [String.mk ['x'], String.mk ['y'], String.mk ['z']]
        (Exp.Bool true)) ∧
    ([String.mk ['x'], String.mk ['y'], String.mk ['z']].length = 3) ∧
    (∀ (fuel : Nat) (i rest : List Char) (vs : List String),
      parse_select_varsF fuel i = .ok rest vs → vs ≠ [])) :=
  ⟨by decide, by decide,
    c9_select_vars_count_order 'x' ['y', 'z'] (by decide) (by decide)⟩

end Sdb
